import Mathlib

/-!
Verification of the VODsync timeline reconciliation engine.

This file gives a shallow embedding, in Lean 4, of the pure data pipeline of
the repository (src/lib/logtime.ts, the multi-clip offset resolver of
src/lib/classColors.ts and the URL detection of src/lib/video.ts), and proves
the stated properties of that pipeline.

Modelling conventions:
* JavaScript numbers are modelled as exact rationals (`ℚ`).  The claims under
  consideration restrict themselves to finite numeric inputs, so the `NaN` and
  `Infinity` branches of the source are outside the model; double-precision
  rounding is likewise outside the model (all arithmetic appearing in the
  pipeline is exact on the inputs of interest).
* JavaScript strings are Lean `String`s; the handful of string primitives the
  source uses (`trim`, `split(":")`, `padStart(2, "0")`, `Number(...)`,
  `String(...)` on a non-negative integer, and the two phase-label regular
  expressions) are modelled explicitly below on the underlying character
  lists.
* `Array.prototype.sort` with a numeric-difference comparator is a stable
  comparison sort; it is modelled by `stableSort`, a stable insertion sort.
* Exceptions (`throw new Error(...)`) are modelled with `Except String`.
* `undefined`/`null`/absent fields of the dynamically typed payloads are
  modelled with `Option`.
-/

/-! ### JavaScript primitive models -/

/-- JavaScript whitespace, at the granularity the pipeline needs
(space, tab, carriage return, line feed). -/
def isJsWs (c : Char) : Bool := c = ' ' || c = '\t' || c = '\r' || c = '\n'

/-- `String.prototype.trim` on the underlying character list. -/
def trimList (cs : List Char) : List Char :=
  ((cs.dropWhile isJsWs).reverse.dropWhile isJsWs).reverse

/-- `String.prototype.trim`. -/
def jsTrim (s : String) : String := String.mk (trimList s.data)

/-- `String.prototype.split(":")` on the underlying character list.
`"a:b"` yields `["a","b"]`, `"::"` yields `["","",""]`, `""` yields `[""]`. -/
def splitColonList : List Char → List (List Char)
  | [] => [[]]
  | c :: rest =>
    if c = ':' then [] :: splitColonList rest
    else
      match splitColonList rest with
      | [] => [[c]]
      | h :: t => (c :: h) :: t

/-- `String.prototype.split(":")`. -/
def jsSplitColon (s : String) : List String :=
  (splitColonList s.data).map String.mk

/-- The characters `'0'`–`'9'`. -/
def isDigitChar (c : Char) : Bool := 48 ≤ c.toNat && c.toNat ≤ 57

/-- Numeric value of a list of decimal digit characters, most significant
first (leading zeros allowed). -/
def digitsVal (cs : List Char) : ℕ :=
  cs.foldl (fun a c => 10 * a + (c.toNat - 48)) 0

/-- Value of a hexadecimal digit character, if it is one. -/
def hexDigitVal (c : Char) : Option ℕ :=
  if 48 ≤ c.toNat ∧ c.toNat ≤ 57 then some (c.toNat - 48)
  else if 97 ≤ c.toNat ∧ c.toNat ≤ 102 then some (c.toNat - 87)
  else if 65 ≤ c.toNat ∧ c.toNat ≤ 70 then some (c.toNat - 55)
  else none

/-- Digits valid in radix `b` (2, 8 or 16), with their values. -/
def radixDigitVal (b : ℕ) (c : Char) : Option ℕ :=
  match hexDigitVal c with
  | some v => if v < b then some v else none
  | none => none

/-- Value of a radix-`b` digit string. -/
def radixVal (b : ℕ) (cs : List Char) : ℕ :=
  cs.foldl (fun a c => b * a + ((radixDigitVal b c).getD 0)) 0

/-- Radix-prefixed integer literal body (after `0x`/`0o`/`0b`):
all characters must be digits of the radix, and at least one is required. -/
def parseRadix (b : ℕ) (cs : List Char) : Option ℚ :=
  if cs ≠ [] ∧ cs.all (fun c => (radixDigitVal b c).isSome) then
    some (radixVal b cs)
  else none

/-- Exponent tail of a decimal literal (`e`/`E`, optional sign, digits);
an empty tail returns the mantissa unchanged, anything else is `NaN`. -/
def parseExpTail (cs : List Char) (mant : ℚ) : Option ℚ :=
  if cs = [] then some mant
  else if cs.head? = some 'e' ∨ cs.head? = some 'E' then
    let body := cs.tail
    let signed : ℤ × List Char :=
      if body.head? = some '+' then (1, body.tail)
      else if body.head? = some '-' then (-1, body.tail)
      else (1, body)
    let ed := signed.2.takeWhile isDigitChar
    if ed = [] ∨ signed.2.dropWhile isDigitChar ≠ [] then none
    else some (mant * (10 : ℚ) ^ (signed.1 * (digitsVal ed : ℤ)))
  else none

/-- Unsigned decimal literal: digits, optional `.` and fraction digits,
optional exponent; at least one digit is required. -/
def parseDec (cs : List Char) : Option ℚ :=
  let ip := cs.takeWhile isDigitChar
  let r1 := cs.dropWhile isDigitChar
  if r1.head? = some '.' then
    let fp := r1.tail.takeWhile isDigitChar
    let r2 := r1.tail.dropWhile isDigitChar
    if ip = [] ∧ fp = [] then none
    else parseExpTail r2 ((digitsVal ip : ℚ) + (digitsVal fp : ℚ) / (10 : ℚ) ^ fp.length)
  else if ip = [] then none
  else parseExpTail r1 (digitsVal ip)

/-- `Infinity` (a number, but not a finite one, hence `none` in this model)
or an unsigned decimal literal. -/
def parseInfOrDec (cs : List Char) : Option ℚ :=
  if cs = "Infinity".data then none else parseDec cs

/-- Unsigned numeric literal in leading position: radix-prefixed integer,
`Infinity`, or decimal. -/
def parseUnsignedTop (cs : List Char) : Option ℚ :=
  if cs.take 2 = ['0', 'x'] ∨ cs.take 2 = ['0', 'X'] then parseRadix 16 (cs.drop 2)
  else if cs.take 2 = ['0', 'o'] ∨ cs.take 2 = ['0', 'O'] then parseRadix 8 (cs.drop 2)
  else if cs.take 2 = ['0', 'b'] ∨ cs.take 2 = ['0', 'B'] then parseRadix 2 (cs.drop 2)
  else parseInfOrDec cs

/-- Signed numeric literal: an explicit sign allows only `Infinity` or a
decimal literal (JavaScript gives `NaN` for a signed radix prefix). -/
def jsNumberCore (cs : List Char) : Option ℚ :=
  if cs.head? = some '+' then parseInfOrDec cs.tail
  else if cs.head? = some '-' then (parseInfOrDec cs.tail).map Neg.neg
  else parseUnsignedTop cs

/-- Model of the JavaScript `Number(string)` conversion.  `none` stands for
a non-finite result (`NaN` or `±Infinity`), which is exactly what the
source's `Number.isFinite` guards reject.  The whitespace-trimmed empty
string converts to `0`. -/
def jsNumber (s : String) : Option ℚ :=
  let t := trimList s.data
  if t = [] then some 0 else jsNumberCore t

/-- `Math.round` (half-up, as on the values of interest). -/
def jsRound (q : ℚ) : ℤ := ⌊q + 1 / 2⌋

/-- Decimal digit characters of a non-negative integer, as produced by the
JavaScript `String(...)` conversion. -/
def natToDigits (n : ℕ) : List Char :=
  if n = 0 then ['0']
  else ((Nat.digits 10 n).reverse.map fun d => Char.ofNat (48 + d))

/-- JavaScript `String(...)` on a non-negative integer. -/
def jsStringOfNat (n : ℕ) : String := String.mk (natToDigits n)

/-- `String.prototype.padStart(2, "0")`. -/
def jsPad2 (s : String) : String :=
  String.mk (List.replicate (2 - s.data.length) '0' ++ s.data)

/-- JavaScript string truthiness: every string except `""` is truthy. -/
def strTruthy (s : String) : Bool := s ≠ ""

/-- `a || b` for an optional string `a` and default `b` (JavaScript `||`
falls through on the empty string). -/
def jsOrElseStr (a : Option String) (b : String) : String :=
  match a with
  | some s => if strTruthy s then s else b
  | none => b

/-! ### Stable comparison sort

`Array.prototype.sort` with a numeric-difference comparator is a stable sort
ordered by the compared key.  `stableSort` models it: a left fold inserting
each element after every already-placed element that compares less-or-equal,
which is stable and structurally recursive. -/

/-- Insert `a` after every leading element `b` with `le b a`. -/
def stableInsert (le : α → α → Bool) (a : α) : List α → List α
  | [] => [a]
  | b :: l => if le b a then b :: stableInsert le a l else a :: b :: l

/-- Stable sort by the boolean relation `le`. -/
def stableSort (le : α → α → Bool) (l : List α) : List α :=
  l.foldl (fun acc a => stableInsert le a acc) []

/-! ### Data model of `src/lib/logtime.ts` -/

/-- A phase transition payload object; every field is optional at runtime. -/
structure PhaseTransitionObj where
  startTime : Option ℚ := none
  time : Option ℚ := none
  timestamp : Option ℚ := none
  label : Option String := none
  phase : Option ℚ := none
  id : Option ℚ := none
  isIntermission : Option Bool := none
  intermission : Option Bool := none
deriving DecidableEq, Repr

/-- A raw phase transition: either a bare number of milliseconds or an
object. -/
inductive PhaseTransitionValue where
  | num (ms : ℚ)
  | obj (o : PhaseTransitionObj)
deriving DecidableEq, Repr

/-- `interface GraphQLDeathEvent`; the runtime also probes a `guid` field on
the target, so it is part of the model. -/
structure GraphQLDeathEvent where
  timestamp : Option ℚ := none
  targetName : Option String := none
  targetGuid : Option String := none
deriving DecidableEq, Repr

/-- `interface GraphQLBloodlustEvent`. -/
structure GraphQLBloodlustEvent where
  timestamp : Option ℚ := none
  sourceName : Option String := none
  abilityName : Option String := none
deriving DecidableEq, Repr

/-- `interface PhaseMetadataEntry`; `id` is optional at runtime (the code
falls back to `Number(key)` when it is not a number). -/
structure PhaseMetadataEntry where
  id : Option ℚ := none
  name : Option String := none
  isIntermission : Option Bool := none
deriving DecidableEq, Repr

/-- `interface RawFight`.  `phaseMetadata` is a `Record<string, ...>`,
modelled as an association list in `Object.entries` order. -/
structure RawFight where
  id : ℚ := 0
  name : String := ""
  encounterID : Option ℚ := none
  startTime : ℚ := 0
  endTime : ℚ := 0
  kill : Bool := false
  bossPercentage : Option ℚ := none
  fightPercentage : Option ℚ := none
  lastPhase : Option ℚ := none
  lastPhaseIsIntermission : Option Bool := none
  phaseTransitions : Option (List PhaseTransitionValue) := none
  deaths : Option (List GraphQLDeathEvent) := none
  bloodlusts : Option (List GraphQLBloodlustEvent) := none
  phaseMetadata : Option (List (String × PhaseMetadataEntry)) := none
deriving DecidableEq, Repr

instance : Inhabited RawFight := ⟨{}⟩

/-- `interface PhaseInfo`. -/
structure PhaseInfo where
  label : String
  percentage : Option ℚ := none
deriving DecidableEq, Repr

/-- `interface PhaseSegment`; `isIntermission` is an optional field and is
absent (`none`) on the fallback single-segment outputs. -/
structure PhaseSegment where
  label : String
  startSeconds : ℚ
  endSeconds : ℚ
  isIntermission : Option Bool := none
deriving DecidableEq, Repr

/-- `interface PhaseMarker`. -/
structure PhaseMarker where
  label : String
  offsetSeconds : ℚ
  isIntermission : Option Bool := none
deriving DecidableEq, Repr

/-- `interface DeathMarker`. -/
structure DeathMarker where
  player : String
  offsetSeconds : ℚ
  offsetText : String
deriving DecidableEq, Repr

/-- `interface BloodlustMarker`. -/
structure BloodlustMarker where
  caster : String
  ability : String
  offsetSeconds : ℚ
  offsetText : String
deriving DecidableEq, Repr

/-- `interface FightRow`.  `result` is the literal string `"KILL"` or
`"Wipe"`. -/
structure FightRow where
  pull : ℕ
  bossName : String
  kill : Bool
  result : String
  timestamp : String
  videoSeconds : ℚ
  bossHpLeft : Option ℚ := none
  bossProgress : Option ℚ := none
  durationSeconds : ℚ
  durationText : String
  phases : List PhaseInfo
  phaseSegments : List PhaseSegment
  phaseMarkers : List PhaseMarker
  deaths : List DeathMarker
  bloodlusts : List BloodlustMarker
deriving DecidableEq, Repr

/-- The normalized transition record (`interface PhaseTransitionInfo`);
`normalizeTransition` always populates `isIntermission` with a boolean. -/
structure PhaseTransitionInfo where
  seconds : ℚ
  label : Option String := none
  isIntermission : Bool := false
  phaseId : Option ℚ := none
deriving DecidableEq, Repr

/-! ### Time utilities (src/lib/logtime.ts lines 141–172) -/

/-- `parseHhmmss`: strict `HH:MM:SS` parser.  The source throws the format
error when the colon-split does not yield exactly 3 parts, the numbers-only
error when `Number` gives a non-finite value for some part, and the range
error when the parsed values are out of range. -/
def parseHhmmss (value : String) : Except String ℚ :=
  match jsSplitColon (jsTrim value) with
  | [p1, p2, p3] =>
    match jsNumber p1, jsNumber p2, jsNumber p3 with
    | some h, some m, some s =>
      if h < 0 ∨ m < 0 ∨ m ≥ 60 ∨ s < 0 ∨ s ≥ 60 then
        .error "Hours must be >= 0, minutes/seconds between 0 and 59."
      else .ok (h * 3600 + m * 60 + s)
    | _, _, _ => .error "Timestamp must contain numbers only."
  | _ => .error "Timestamp must be in HH:MM:SS format."

/-- `formatHhmmss`. -/
def formatHhmmss (seconds : ℚ) : String :=
  let total : ℕ := (max 0 (jsRound seconds)).toNat
  let hrs := total / 3600
  let mins := total % 3600 / 60
  let secs := total % 60
  jsPad2 (jsStringOfNat hrs) ++ ":" ++ jsPad2 (jsStringOfNat mins) ++ ":" ++
    jsPad2 (jsStringOfNat secs)

/-- `formatDuration` (`MM:SS`). -/
def formatDuration (seconds : ℚ) : String :=
  let total : ℕ := (max 0 (jsRound seconds)).toNat
  let mins := total / 60
  let secs := total % 60
  jsPad2 (jsStringOfNat mins) ++ ":" ++ jsPad2 (jsStringOfNat secs)

/-! ### Boss-progress extraction and phase reconstruction -/

/-- `extractBossPercentage`: first finite number among
`[fight.fightPercentage, fight.bossPercentage]`; in the rational model every
present number is finite. -/
def extractBossPercentage (fight : RawFight) : Option ℚ :=
  match fight.fightPercentage with
  | some p => some p
  | none => fight.bossPercentage

/-- Case-insensitive character-list comparison of a pattern against the
start of a list. -/
def startsWithCI : List Char → List Char → Bool
  | [], _ => true
  | _ :: _, [] => false
  | p :: ps, c :: cs => (p.toLower = c.toLower) && startsWithCI ps cs

/-- Match of the regular expression `/intermission\s+(\d+)/i` anchored at
the current position, returning the captured digits. -/
def intermissionDigitsAt (cs : List Char) : Option (List Char) :=
  if startsWithCI "intermission".data cs then
    let rest := cs.drop 12
    let afterWs := rest.dropWhile isJsWs
    let ds := afterWs.takeWhile isDigitChar
    if rest.takeWhile isJsWs ≠ [] ∧ ds ≠ [] then some ds else none
  else none

/-- Left-to-right scan for `/intermission\s+(\d+)/i`. -/
def findIntermissionDigits : List Char → Option (List Char)
  | [] => none
  | c :: rest =>
    match intermissionDigitsAt (c :: rest) with
    | some ds => some ds
    | none => findIntermissionDigits rest

/-- `normalizePhaseLabel`: rewrite a label matching `intermission N`
(case-insensitively, anywhere in the string) to `IN`. -/
def normalizePhaseLabel (label : String) : String :=
  match findIntermissionDigits label.data with
  | some ds => String.mk ('I' :: ds)
  | none => label

/-- `labelIndicatesIntermission`: a falsy (absent or empty) label is not an
intermission; otherwise normalize, trim, and test `/^I\d+$/i`. -/
def labelIndicatesIntermission (label : Option String) : Bool :=
  match label with
  | none => false
  | some l =>
    if l = "" then false
    else
      match (jsTrim (normalizePhaseLabel l)).data with
      | c :: rest => (c = 'I' ∨ c = 'i') && rest ≠ [] && rest.all isDigitChar
      | [] => false

/-- `clampSeconds`; the `NaN` and `Infinity` branches of the source do not
arise in the rational model. -/
def clampSeconds (value maxSeconds : ℚ) : ℚ :=
  max 0 (min maxSeconds value)

/-- `Map.prototype.set` on an association list kept in insertion order. -/
def mapSet (m : List (ℚ × PhaseMetadataEntry)) (k : ℚ) (v : PhaseMetadataEntry) :
    List (ℚ × PhaseMetadataEntry) :=
  match m with
  | [] => [(k, v)]
  | (k0, v0) :: rest => if k0 = k then (k0, v) :: rest else (k0, v0) :: mapSet rest k v

/-- `Map.prototype.get` on the association-list model. -/
def mapGet (m : List (ℚ × PhaseMetadataEntry)) (k : ℚ) : Option PhaseMetadataEntry :=
  match m with
  | [] => none
  | (k0, v0) :: rest => if k0 = k then some v0 else mapGet rest k

/-- `buildPhaseMetadataMap`: key each entry by its numeric `id`, falling
back to `Number(key)`; a map that ends up empty becomes `null`.  (The
`!value` guard of the source skips `null` record values, which the typed
model cannot hold.) -/
def buildPhaseMetadataMap (metadata : Option (List (String × PhaseMetadataEntry))) :
    Option (List (ℚ × PhaseMetadataEntry)) :=
  match metadata with
  | none => none
  | some entries =>
    let m := entries.foldl (fun m kv =>
      let idq : Option ℚ :=
        match kv.2.id with
        | some q => some q
        | none => jsNumber kv.1
      match idq with
      | some idv => mapSet m idv kv.2
      | none => m) []
    if m = [] then none else some m

/-- `getNumber`: in the rational model every stored number is finite, so the
`Number.isFinite` filter is the identity. -/
def getNumber (value : Option ℚ) : Option ℚ := value

/-- `normalizeTransition`: classify the raw value, convert an absolute
timestamp (one that came from an explicit `startTime` field) to a
fight-relative one, clamp below by 0, convert to seconds, and resolve the
label and intermission flag through the phase-metadata map. -/
def normalizeTransition (value : PhaseTransitionValue) (fightStartMs : ℚ)
    (metadataMap : Option (List (ℚ × PhaseMetadataEntry))) : Option PhaseTransitionInfo :=
  let parsed : Option ℚ × Option String × Option ℚ × Bool × Bool :=
    match value with
    | .num ms => (some ms, none, none, false, false)
    | .obj o =>
      let raw := getNumber (o.startTime <|> o.time <|> o.timestamp)
      let label := o.label.map normalizePhaseLabel
      let phaseId := o.phase <|> o.id
      let isInterm := ((o.isIntermission <|> o.intermission)).getD false
      (raw, label, phaseId, isInterm, o.startTime.isSome)
  match parsed with
  | (none, _, _, _, _) => none
  | (some milliseconds, label0, phaseId, isInterm0, isAbsolute) =>
    let relativeMs := if isAbsolute then milliseconds - fightStartMs else milliseconds
    let seconds := (max 0 relativeMs) / 1000
    let metadata := phaseId.bind (fun pid => metadataMap.bind (fun m => mapGet m pid))
    let label1 :=
      if (label0.getD "") = "" then
        match metadata.bind (·.name) with
        | some nm => some (jsTrim nm)
        | none => label0
      else label0
    let isInterm1 := isInterm0 || (metadata.bind (·.isIntermission)).getD false
    some { seconds := seconds, label := label1, isIntermission := isInterm1,
           phaseId := phaseId }

/-- Loop state of the transition walk inside `buildPhaseSegmentsAndMarkers`
(the mutable locals `segments`, `markers`, `lastStart`, `currentLabel`,
`currentIsIntermission`, `phaseCount`, `intermissionCount`). -/
structure PhaseBuildState where
  segments : List PhaseSegment
  markers : List PhaseMarker
  lastStart : ℚ
  currentLabel : Option String
  currentIsIntermission : Bool
  phaseCount : ℕ
  intermissionCount : ℕ
deriving DecidableEq, Repr

/-- One iteration of the `transitions.forEach` loop. -/
def phaseStep (durationSeconds : ℚ) (st : PhaseBuildState)
    (entry : PhaseTransitionInfo) : PhaseBuildState :=
  let transitionSeconds := clampSeconds entry.seconds durationSeconds
  let start := max 0 st.lastStart
  let endS := min durationSeconds transitionSeconds
  let segments1 :=
    if start < endS then
      st.segments ++ [{ label := jsOrElseStr st.currentLabel
                          ("P" ++ jsStringOfNat (st.segments.length + 1)),
                        startSeconds := start, endSeconds := endS,
                        isIntermission := some st.currentIsIntermission }]
    else st.segments
  let isIntermissionEntry := entry.isIntermission || labelIndicatesIntermission entry.label
  let next : String × ℕ × ℕ :=
    if isIntermissionEntry then
      ("I" ++ jsStringOfNat (st.intermissionCount + 1), st.phaseCount,
        st.intermissionCount + 1)
    else
      ("P" ++ jsStringOfNat st.phaseCount, st.phaseCount + 1, st.intermissionCount)
  let markers1 :=
    if 0 ≤ transitionSeconds ∧ transitionSeconds ≤ durationSeconds then
      st.markers ++ [{ label := next.1, offsetSeconds := transitionSeconds,
                       isIntermission := some entry.isIntermission }]
    else st.markers
  { segments := segments1, markers := markers1, lastStart := transitionSeconds,
    currentLabel := some next.1, currentIsIntermission := isIntermissionEntry,
    phaseCount := next.2.1, intermissionCount := next.2.2 }

/-- The initial loop state of `buildPhaseSegmentsAndMarkers`. -/
def phaseInit : PhaseBuildState :=
  { segments := [], markers := [], lastStart := 0, currentLabel := some "P1",
    currentIsIntermission := false, phaseCount := 1, intermissionCount := 0 }

/-- `buildPhaseSegmentsAndMarkers` (src/lib/logtime.ts lines 250–339). -/
def buildPhaseSegmentsAndMarkers (fight : RawFight) (durationSeconds : ℚ) :
    List PhaseSegment × List PhaseMarker :=
  let raw := fight.phaseTransitions.getD []
  if raw = [] ∨ durationSeconds ≤ 0 then
    ([{ label := if fight.kill then "Kill" else "P1", startSeconds := 0,
        endSeconds := durationSeconds, isIntermission := none }], [])
  else
    let fightStartMs := fight.startTime
    let metadataMap := buildPhaseMetadataMap fight.phaseMetadata
    let transitions := stableSort (fun a b => decide (a.seconds ≤ b.seconds))
      ((raw.map (fun v => normalizeTransition v fightStartMs metadataMap)).filterMap id)
    let st := transitions.foldl (phaseStep durationSeconds) phaseInit
    let segments2 :=
      if st.lastStart < durationSeconds then
        st.segments ++
          [{ label := if fight.kill then "Kill"
                      else jsOrElseStr st.currentLabel
                        ("P" ++ jsStringOfNat (st.segments.length + 1)),
             startSeconds := max 0 st.lastStart, endSeconds := durationSeconds,
             isIntermission := some (if fight.kill then false
                                     else st.currentIsIntermission) }]
      else st.segments
    let segments3 :=
      if segments2 = [] then
        [{ label := if fight.kill then "Kill" else "P1", startSeconds := 0,
           endSeconds := durationSeconds, isIntermission := none }]
      else segments2
    (segments3, st.markers)

/-- JavaScript number-to-string as used in template literals.  Integral
values render in decimal; the shortest-round-trip rendering of non-integral
doubles is outside the model (no claim exercises it) and is represented by
the reduced fraction. -/
def jsStringOfQ (q : ℚ) : String :=
  if q.den = 1 then
    (if q.num < 0 then "-" else "") ++ jsStringOfNat q.num.natAbs
  else
    (if q.num < 0 then "-" else "") ++ jsStringOfNat q.num.natAbs ++ "/" ++
      jsStringOfNat q.den

/-- `buildPhaseInfo`. -/
def buildPhaseInfo (fight : RawFight) : List PhaseInfo :=
  let label :=
    if fight.kill then "Kill"
    else
      match fight.lastPhase with
      | some lp =>
        if fight.lastPhaseIsIntermission.getD false then "I" ++ jsStringOfQ (max 1 lp)
        else "P" ++ jsStringOfQ (max 1 lp)
      | none => "P1"
  [{ label := label,
     percentage := if fight.kill then none
                   else (fight.bossPercentage <|> fight.fightPercentage) }]

/-- `buildDeathMarkers` (src/lib/logtime.ts lines 434–451). -/
def buildDeathMarkers (fight : RawFight) (durationSeconds : ℚ) : List DeathMarker :=
  let rawDeaths := fight.deaths.getD []
  stableSort (fun a b => decide (a.offsetSeconds ≤ b.offsetSeconds))
    (rawDeaths.filterMap (fun event =>
      match event.timestamp with
      | none => none
      | some timestamp =>
        let offsetMs := timestamp - fight.startTime
        let offsetSeconds := max 0 (min durationSeconds (offsetMs / 1000))
        let player := jsOrElseStr event.targetName (jsOrElseStr event.targetGuid "Unknown")
        some { player := player, offsetSeconds := offsetSeconds,
               offsetText := formatDuration offsetSeconds }))

/-- `buildBloodlustMarkers` (src/lib/logtime.ts lines 453–472). -/
def buildBloodlustMarkers (fight : RawFight) (durationSeconds : ℚ) :
    List BloodlustMarker :=
  let rawEvents := fight.bloodlusts.getD []
  stableSort (fun a b => decide (a.offsetSeconds ≤ b.offsetSeconds))
    (rawEvents.filterMap (fun event =>
      match event.timestamp with
      | none => none
      | some timestamp =>
        let offsetMs := timestamp - fight.startTime
        let offsetSeconds := max 0 (min durationSeconds (offsetMs / 1000))
        let caster := jsOrElseStr event.sourceName "Unknown"
        let ability := jsOrElseStr event.abilityName "Bloodlust"
        some { caster := caster, ability := ability, offsetSeconds := offsetSeconds,
               offsetText := formatDuration offsetSeconds }))

/-- The row built for one boss fight by the `bossFights.map` callback of
`buildBossFightRows`, with `videoOffset` the enclosing conversion constant
and `iFight` the `(index, fight)` pair. -/
def fightRowOf (videoOffset : ℚ) (iFight : ℕ × RawFight) : FightRow :=
  let fight := iFight.2
  let startSeconds := fight.startTime / 1000
  let videoSeconds := max 0 (startSeconds + videoOffset)
  let duration := max 0 ((fight.endTime - fight.startTime) / 1000)
  let bossHpLeft := extractBossPercentage fight
  let bossProgress := bossHpLeft.map (fun hp => max 0 (100 - hp))
  let sm := buildPhaseSegmentsAndMarkers fight duration
  { pull := iFight.1 + 1,
    bossName := jsOrElseStr (some fight.name) "Unknown Boss",
    kill := fight.kill,
    result := if fight.kill then "KILL" else "Wipe",
    timestamp := formatHhmmss videoSeconds,
    videoSeconds := videoSeconds,
    bossHpLeft := bossHpLeft,
    bossProgress := bossProgress,
    durationSeconds := duration,
    durationText := formatDuration duration,
    phases := buildPhaseInfo fight,
    phaseSegments := sm.1,
    phaseMarkers := sm.2,
    deaths := buildDeathMarkers fight duration,
    bloodlusts := buildBloodlustMarkers fight duration }

/-- `buildBossFightRows` (src/lib/logtime.ts lines 187–225): filter to boss
fights, fail when none remain, sort (stably) by `startTime`, derive the
single report-clock-to-video offset from the first pull, and emit one row
per boss fight. -/
def buildBossFightRows (fights : List RawFight) (vodStartSeconds : ℚ) :
    Except String (List FightRow) :=
  let bossFights := fights.filter (fun fight => decide (fight.encounterID.getD 0 > 0))
  if bossFights.isEmpty then .error "Report contains no boss fights."
  else
    let sorted := stableSort (fun a b => decide (a.startTime ≤ b.startTime)) bossFights
    let firstStartSeconds := (sorted.headD default).startTime / 1000
    let videoOffset := vodStartSeconds - firstStartSeconds
    .ok (sorted.enum.map (fightRowOf videoOffset))

/-! ### URL detection (src/lib/video.ts) and the multi-clip offset resolver
(src/lib/classColors.ts lines 1007–1051) -/

/-- `type VideoSource`. -/
inductive VideoSource where
  | youtube (videoId : String)
  | html5 (url : String)
deriving DecidableEq, Repr

/-- Partial model of a parsed WHATWG URL at the granularity
`detectVideoSource` and `extractYoutubeId` read it: hostname, pathname and
query parameters of an absolute `scheme://...` URL (percent-decoding and
other normalizations are outside the model). -/
structure JsUrl where
  scheme : String
  hostname : String
  pathname : String
  queryParams : List (String × String)
deriving DecidableEq, Repr

/-- Split a character list on every occurrence of `sep`. -/
def splitOnChar (sep : Char) : List Char → List (List Char)
  | [] => [[]]
  | c :: rest =>
    if c = sep then [] :: splitOnChar sep rest
    else
      match splitOnChar sep rest with
      | [] => [[c]]
      | h :: t => (c :: h) :: t

/-- Does `cs` start with `pat`? -/
def startsWithSeq (pat cs : List Char) : Bool := cs.take pat.length = pat

/-- `String.prototype.includes`. -/
def containsSeq (pat : List Char) : List Char → Bool
  | [] => pat = []
  | c :: rest => startsWithSeq pat (c :: rest) || containsSeq pat rest

/-- `new URL(...)` in the partial model: scheme, `://`, authority
(user-info and port stripped, hostname lower-cased), path, query. -/
def jsParseURL (s : String) : Option JsUrl :=
  let cs := s.data
  let scheme := cs.takeWhile Char.isAlpha
  let rest := cs.drop scheme.length
  if scheme = [] ∨ rest.take 3 ≠ [':', '/', '/'] then none
  else
    let rest2 := rest.drop 3
    let authority := rest2.takeWhile (fun c => !(c = '/' || c = '?' || c = '#'))
    let afterAt :=
      if containsSeq ['@'] authority then
        (authority.reverse.takeWhile (fun c => c ≠ '@')).reverse
      else authority
    let host := afterAt.takeWhile (fun c => c ≠ ':')
    if host = [] then none
    else
      let tail1 := rest2.drop authority.length
      let path := tail1.takeWhile (fun c => !(c = '?' || c = '#'))
      let pathname := if path = [] then "/" else String.mk path
      let afterPath := tail1.drop path.length
      let query :=
        if afterPath.head? = some '?' then
          (splitOnChar '&' (afterPath.tail.takeWhile (fun c => c ≠ '#'))).filterMap
            (fun field =>
              if field = [] then none
              else
                let k := field.takeWhile (fun c => c ≠ '=')
                some (String.mk k, String.mk (field.drop (k.length + 1))))
        else []
      some { scheme := String.mk (scheme.map Char.toLower),
             hostname := String.mk (host.map Char.toLower),
             pathname := pathname, queryParams := query }

/-- `URLSearchParams.prototype.get`. -/
def searchParamsGet (ps : List (String × String)) (k : String) : Option String :=
  (ps.find? (fun kv => kv.1 = k)).map (fun kv => kv.2)

/-- `URL.prototype.toString` in the partial model. -/
def jsUrlToString (u : JsUrl) : String :=
  u.scheme ++ "://" ++ u.hostname ++ u.pathname ++
    (match u.queryParams with
     | [] => ""
     | ps => "?" ++ String.intercalate "&" (ps.map (fun kv => kv.1 ++ "=" ++ kv.2)))

/-- The character class `[\w-]`. -/
def wordDashChar (c : Char) : Bool := c.isAlphanum || c = '_' || c = '-'

/-- `isYoutubeId`: truthy, exactly 11 characters, all in `[\w-]`. -/
def isYoutubeIdStr (v : Option String) : Bool :=
  match v with
  | none => false
  | some s => strTruthy s && s.data.length = 11 && s.data.all wordDashChar

/-- Match of `/\/(embed|shorts|live)\/([\w-]{11})/` anchored at the current
position, returning the captured id. -/
def embedSliceAt (cs : List Char) : Option String :=
  let tryKw (kw : List Char) : Option String :=
    if startsWithSeq kw cs then
      let ds := (cs.drop kw.length).take 11
      if ds.length = 11 ∧ ds.all wordDashChar then some (String.mk ds) else none
    else none
  tryKw "/embed/".data <|> tryKw "/shorts/".data <|> tryKw "/live/".data

/-- Left-to-right scan for `/\/(embed|shorts|live)\/([\w-]{11})/`. -/
def findEmbedId : List Char → Option String
  | [] => none
  | c :: rest => embedSliceAt (c :: rest) <|> findEmbedId rest

/-- `extractYoutubeId`. -/
def extractYoutubeId (url : JsUrl) : Option String :=
  let host := url.hostname.data.map Char.toLower
  let path := String.mk ((url.pathname.data.reverse.dropWhile (fun c => c = '/')).reverse)
  let fromBe : Option String :=
    if containsSeq "youtu.be".data host then
      let slug := ((splitOnChar '/' path.data).map String.mk).get? 1
      if isYoutubeIdStr slug then slug else none
    else none
  match fromBe with
  | some s => some s
  | none =>
    if containsSeq "youtube.com".data host then
      let fromWatch : Option String :=
        if path = "/watch" ∨ path = "/" then
          let id := searchParamsGet url.queryParams "v"
          if isYoutubeIdStr id then id else none
        else none
      match fromWatch with
      | some s => some s
      | none =>
        match findEmbedId path.data with
        | some em => if isYoutubeIdStr (some em) then some em else none
        | none => none
    else none

/-- `/\.(mp4|webm|ogg)$/i` on the pathname. -/
def endsWithMediaExt (p : String) : Bool :=
  [".mp4", ".webm", ".ogg"].any (fun suf =>
    let l := p.data.map Char.toLower
    suf.data.length ≤ l.length && l.drop (l.length - suf.data.length) = suf.data)

/-- `detectVideoSource`. -/
def detectVideoSource (rawUrl : String) : Option VideoSource :=
  let trimmed := jsTrim rawUrl
  if !strTruthy trimmed then none
  else
    match jsParseURL trimmed with
    | none => none
    | some parsed =>
      let host := String.mk (parsed.hostname.data.map Char.toLower)
      if containsSeq "youtube.com".data host.data ||
          containsSeq "youtu.be".data host.data then
        (extractYoutubeId parsed).map VideoSource.youtube
      else if endsWithMediaExt parsed.pathname then
        some (.html5 (jsUrlToString parsed))
      else none

/-- `interface VideoFormEntry`. -/
structure VideoFormEntry where
  url : String
  firstPull : String
  label : String
deriving DecidableEq, Repr

/-- `interface VideoOption`. -/
structure VideoOption where
  url : String
  source : VideoSource
  firstPullSeconds : ℚ
  offsetSeconds : ℚ
  label : String
  characterName : Option String
deriving DecidableEq, Repr

/-- The intermediate record of `buildVideoOptionsFromInputs` before the
offset is attached. -/
structure ParsedVideoEntry where
  url : String
  source : VideoSource
  firstPullSeconds : ℚ
  label : String
  characterName : Option String
deriving DecidableEq, Repr

/-- Trim step of `buildVideoOptionsFromInputs` on one `(index, entry)`
pair. -/
def trimVideoEntry (ie : ℕ × VideoFormEntry) : ℕ × VideoFormEntry :=
  (ie.1,
   { url := jsTrim ie.2.url,
     firstPull := jsOrElseStr (some (jsTrim (jsOrElseStr (some ie.2.firstPull) "00:00:00")))
       "00:00:00",
     label := jsTrim (jsOrElseStr (some ie.2.label) "") })

/-- Parse step of `buildVideoOptionsFromInputs` on one trimmed entry:
timestamp parse (with the error message re-wrapped per entry) and source
detection. -/
def parseVideoEntry (ie : ℕ × VideoFormEntry) : Except String ParsedVideoEntry :=
  match parseHhmmss ie.2.firstPull with
  | .error msg => .error ("Video #" ++ jsStringOfNat (ie.1 + 1) ++ ": " ++ msg)
  | .ok firstPullSeconds =>
    match detectVideoSource ie.2.url with
    | none => .error ("Video #" ++ jsStringOfNat (ie.1 + 1) ++
        ": Unsupported URL. Use YouTube or a direct .mp4/.webm link.")
    | some source =>
      .ok { url := ie.2.url, source := source, firstPullSeconds := firstPullSeconds,
            label := jsOrElseStr (some ie.2.label) ("Video " ++ jsStringOfNat (ie.1 + 1)),
            characterName :=
              if strTruthy ie.2.label then
                some (String.mk ((jsTrim ie.2.label).data.map Char.toLower))
              else none }

/-- `buildVideoOptionsFromInputs`: trim and index the entries, drop the ones
with an empty URL, parse each (first failure aborts), sort stably by
`firstPullSeconds`, and attach `offsetSeconds` relative to the earliest
anchor. -/
def buildVideoOptionsFromInputs (entries : List VideoFormEntry) :
    Except String (List VideoOption) :=
  let trimmed := (entries.enum.map trimVideoEntry).filter
    (fun ie => decide (ie.2.url.data.length > 0))
  if trimmed.isEmpty then .ok []
  else
    match trimmed.mapM parseVideoEntry with
    | .error e => .error e
    | .ok parsed =>
      let sorted := stableSort
        (fun a b => decide (a.firstPullSeconds ≤ b.firstPullSeconds)) parsed
      let base := ((sorted.head?).map (fun e => e.firstPullSeconds)).getD 0
      .ok (sorted.map (fun e =>
        { url := e.url, source := e.source, firstPullSeconds := e.firstPullSeconds,
          offsetSeconds := e.firstPullSeconds - base, label := e.label,
          characterName := e.characterName }))

/-! ### Array-mutation model for the frame property of `buildBossFightRows`

JavaScript arrays are mutable objects; fight objects are modelled as
immutable records because the source never assigns to a fight's fields.  A
heap maps array references (allocation indices) to their current
contents. -/

/-- The heap of fight arrays: cell `i` is the array with reference `i`. -/
abbrev FightHeap := List (List RawFight)

/-- Read the array behind reference `r`. -/
def heapRead (h : FightHeap) (r : ℕ) : List RawFight := h.getD r []

/-- Overwrite the array behind reference `r` (in-place mutation). -/
def heapWrite (h : FightHeap) (r : ℕ) (a : List RawFight) : FightHeap := h.set r a

/-- Allocate a fresh array. -/
def heapAlloc (h : FightHeap) (a : List RawFight) : FightHeap × ℕ := (h ++ [a], h.length)

/-- `buildBossFightRows` with its array effects explicit: `fights.filter`
allocates a fresh array, `bossFights.sort` mutates that fresh array in
place, and the `map` only reads.  Returns the final heap alongside the
result. -/
def buildBossFightRowsHeap (h : FightHeap) (r : ℕ) (vodStartSeconds : ℚ) :
    FightHeap × Except String (List FightRow) :=
  let fights := heapRead h r
  let alloc1 := heapAlloc h
    (fights.filter (fun fight => decide (fight.encounterID.getD 0 > 0)))
  let h1 := alloc1.1
  let rB := alloc1.2
  if (heapRead h1 rB).isEmpty then (h1, .error "Report contains no boss fights.")
  else
    let h2 := heapWrite h1 rB
      (stableSort (fun a b => decide (a.startTime ≤ b.startTime)) (heapRead h1 rB))
    let sorted := heapRead h2 rB
    let firstStartSeconds := (sorted.headD default).startTime / 1000
    let videoOffset := vodStartSeconds - firstStartSeconds
    (h2, .ok (sorted.enum.map (fightRowOf videoOffset)))

/-! ### Lemmas about the stable sort -/

section StableSortLemmas

variable {α : Type _} (le : α → α → Bool)

theorem stableInsert_perm (a : α) (l : List α) : (stableInsert le a l).Perm (a :: l) := by
  induction l with
  | nil => exact List.Perm.refl _
  | cons b t ih =>
    simp only [stableInsert]
    by_cases hba : le b a = true
    · rw [if_pos hba]
      exact (ih.cons b).trans (List.Perm.swap a b t)
    · rw [if_neg hba]

theorem stableSort_fold_perm (l acc : List α) :
    (l.foldl (fun acc a => stableInsert le a acc) acc).Perm (acc ++ l) := by
  induction l generalizing acc with
  | nil => simp
  | cons a t ih =>
    refine ((ih (stableInsert le a acc)).trans ?_)
    exact ((stableInsert_perm le a acc).append_right t).trans List.perm_middle.symm

theorem stableSort_perm (l : List α) : (stableSort le l).Perm l := by
  simpa [stableSort] using stableSort_fold_perm le l []

theorem mem_stableSort {x : α} {l : List α} : x ∈ stableSort le l ↔ x ∈ l :=
  (stableSort_perm le l).mem_iff

theorem length_stableSort (l : List α) : (stableSort le l).length = l.length :=
  (stableSort_perm le l).length_eq

theorem stableInsert_pairwise
    (htrans : ∀ a b c, le a b = true → le b c = true → le a c = true)
    (htotal : ∀ a b, le a b = true ∨ le b a = true) (a : α) (l : List α)
    (hl : l.Pairwise (fun x y => le x y = true)) :
    (stableInsert le a l).Pairwise (fun x y => le x y = true) := by
  induction l with
  | nil => simp [stableInsert]
  | cons b t ih =>
    rcases List.pairwise_cons.mp hl with ⟨hb, ht⟩
    simp only [stableInsert]
    by_cases hba : le b a = true
    · rw [if_pos hba]
      refine List.pairwise_cons.mpr ⟨?_, ih ht⟩
      intro x hx
      rcases List.mem_cons.mp ((stableInsert_perm le a t).mem_iff.mp hx) with rfl | hxt
      · exact hba
      · exact hb x hxt
    · rw [if_neg hba]
      have hab : le a b = true := (htotal a b).resolve_right hba
      refine List.pairwise_cons.mpr ⟨?_, hl⟩
      intro x hx
      rcases List.mem_cons.mp hx with rfl | hxt
      · exact hab
      · exact htrans a b x hab (hb x hxt)

theorem stableSort_pairwise
    (htrans : ∀ a b c, le a b = true → le b c = true → le a c = true)
    (htotal : ∀ a b, le a b = true ∨ le b a = true) (l : List α) :
    (stableSort le l).Pairwise (fun x y => le x y = true) := by
  suffices H : ∀ acc, acc.Pairwise (fun x y => le x y = true) →
      (l.foldl (fun acc a => stableInsert le a acc) acc).Pairwise
        (fun x y => le x y = true) by
    exact H [] (by simp)
  induction l with
  | nil => exact fun acc h => h
  | cons a t ih =>
    intro acc hacc
    exact ih _ (stableInsert_pairwise le htrans htotal a acc hacc)

end StableSortLemmas

/-- `Pairwise` transfers from a list to its enumeration. -/
theorem pairwise_enumFrom {α : Type _} {R : α → α → Prop} :
    ∀ (l : List α) (n : ℕ), l.Pairwise R →
      (l.enumFrom n).Pairwise (fun p q => R p.2 q.2)
  | [], _, _ => by simp
  | a :: t, n, h => by
    rcases List.pairwise_cons.mp h with ⟨ha, ht⟩
    refine List.pairwise_cons.mpr ⟨?_, pairwise_enumFrom t (n + 1) ht⟩
    intro q hq
    have : q.2 ∈ t := by
      have := congrArg (fun l => q.2 ∈ l) (List.enumFrom_map_snd (n + 1) t)
      exact (by simpa using List.mem_map_of_mem Prod.snd hq : q.2 ∈ t)
    exact ha q.2 this

/-- `Pairwise` transfers from a list to its `enum`. -/
theorem pairwise_enum {α : Type _} {R : α → α → Prop} (l : List α) (h : l.Pairwise R) :
    l.enum.Pairwise (fun p q => R p.2 q.2) :=
  pairwise_enumFrom l 0 h

/-! ### The no-boss-fights error -/

/-- C5: `buildBossFightRows fights anchor` yields the no-boss-fights error
exactly when no fight has `encounterID > 0`; when at least one fight
qualifies, it returns a non-empty row list instead. -/
theorem buildBossFightRows_error_iff (fights : List RawFight) (vodStartSeconds : ℚ) :
    (buildBossFightRows fights vodStartSeconds =
        Except.error "Report contains no boss fights." ↔
      ∀ f ∈ fights, ¬ (0 < f.encounterID.getD 0)) ∧
    ((∃ f ∈ fights, 0 < f.encounterID.getD 0) →
      ∃ rows, buildBossFightRows fights vodStartSeconds = Except.ok rows ∧
        rows ≠ []) := by
  by_cases hbf :
      fights.filter (fun fight => decide (fight.encounterID.getD 0 > 0)) = []
  · have hres : buildBossFightRows fights vodStartSeconds =
        Except.error "Report contains no boss fights." := by
      simp only [buildBossFightRows, hbf]
      rfl
    have hall : ∀ f ∈ fights, ¬ (0 < f.encounterID.getD 0) := by
      rw [List.filter_eq_nil_iff] at hbf
      intro f hf
      simpa using hbf f hf
    refine ⟨⟨fun _ => hall, fun _ => hres⟩, ?_⟩
    rintro ⟨f, hf, hpos⟩
    exact absurd hpos (hall f hf)
  · have hne : (fights.filter
        (fun fight => decide (fight.encounterID.getD 0 > 0))).isEmpty = false := by
      simpa [List.isEmpty_iff] using hbf
    have hres : buildBossFightRows fights vodStartSeconds =
        Except.ok ((stableSort (fun a b => decide (a.startTime ≤ b.startTime))
            (fights.filter (fun fight => decide (fight.encounterID.getD 0 > 0)))).enum.map
          (fightRowOf (vodStartSeconds -
            ((stableSort (fun a b => decide (a.startTime ≤ b.startTime))
              (fights.filter (fun fight =>
                decide (fight.encounterID.getD 0 > 0)))).headD default).startTime / 1000))) := by
      simp only [buildBossFightRows, hne]
      rfl
    constructor
    · rw [hres]
      simp only [reduceCtorEq, false_iff]
      intro hall
      rcases List.exists_mem_of_ne_nil _ hbf with ⟨f, hf⟩
      rcases List.mem_filter.mp hf with ⟨hfm, hfp⟩
      exact hall f hfm (by simpa using hfp)
    · intro _
      refine ⟨_, hres, ?_⟩
      intro hnil
      have hlen := congrArg List.length hnil
      simp only [List.length_map, List.enum_length, List.length_nil] at hlen
      rw [length_stableSort] at hlen
      exact hbf (List.length_eq_zero.mp hlen)

/-! ### Death and bloodlust marker invariants -/

/-- Transitivity of the decided `≤` comparator on death markers. -/
theorem deathLe_trans : ∀ a b c : DeathMarker,
    decide (a.offsetSeconds ≤ b.offsetSeconds) = true →
    decide (b.offsetSeconds ≤ c.offsetSeconds) = true →
    decide (a.offsetSeconds ≤ c.offsetSeconds) = true := by
  intro a b c hab hbc
  simp only [decide_eq_true_eq] at *
  exact le_trans hab hbc

/-- Totality of the decided `≤` comparator on death markers. -/
theorem deathLe_total : ∀ a b : DeathMarker,
    decide (a.offsetSeconds ≤ b.offsetSeconds) = true ∨
    decide (b.offsetSeconds ≤ a.offsetSeconds) = true := by
  intro a b
  simp only [decide_eq_true_eq]
  exact le_total _ _

/-- Transitivity of the decided `≤` comparator on bloodlust markers. -/
theorem lustLe_trans : ∀ a b c : BloodlustMarker,
    decide (a.offsetSeconds ≤ b.offsetSeconds) = true →
    decide (b.offsetSeconds ≤ c.offsetSeconds) = true →
    decide (a.offsetSeconds ≤ c.offsetSeconds) = true := by
  intro a b c hab hbc
  simp only [decide_eq_true_eq] at *
  exact le_trans hab hbc

/-- Totality of the decided `≤` comparator on bloodlust markers. -/
theorem lustLe_total : ∀ a b : BloodlustMarker,
    decide (a.offsetSeconds ≤ b.offsetSeconds) = true ∨
    decide (b.offsetSeconds ≤ a.offsetSeconds) = true := by
  intro a b
  simp only [decide_eq_true_eq]
  exact le_total _ _

/-- C9: every death marker and every bloodlust marker has its offset inside
`[0, durationSeconds]`, and both lists are sorted by ascending offset. -/
theorem markers_range_and_sorted (fight : RawFight) (durationSeconds : ℚ)
    (hd : 0 ≤ durationSeconds) :
    (∀ mk ∈ buildDeathMarkers fight durationSeconds,
        0 ≤ mk.offsetSeconds ∧ mk.offsetSeconds ≤ durationSeconds) ∧
    (buildDeathMarkers fight durationSeconds).Pairwise
      (fun a b => a.offsetSeconds ≤ b.offsetSeconds) ∧
    (∀ mk ∈ buildBloodlustMarkers fight durationSeconds,
        0 ≤ mk.offsetSeconds ∧ mk.offsetSeconds ≤ durationSeconds) ∧
    (buildBloodlustMarkers fight durationSeconds).Pairwise
      (fun a b => a.offsetSeconds ≤ b.offsetSeconds) := by
  refine ⟨?_, ?_, ?_, ?_⟩
  · intro mk hmk
    rw [buildDeathMarkers, mem_stableSort, List.mem_filterMap] at hmk
    rcases hmk with ⟨ev, _, hsome⟩
    cases hts : ev.timestamp with
    | none => rw [hts] at hsome; exact Option.noConfusion hsome
    | some t =>
      rw [hts] at hsome
      simp only [Option.some.injEq] at hsome
      rw [← hsome]
      exact ⟨le_max_left _ _, max_le hd (min_le_left _ _)⟩
  · exact (stableSort_pairwise _ deathLe_trans deathLe_total _).imp
      (fun h => of_decide_eq_true h)
  · intro mk hmk
    rw [buildBloodlustMarkers, mem_stableSort, List.mem_filterMap] at hmk
    rcases hmk with ⟨ev, _, hsome⟩
    cases hts : ev.timestamp with
    | none => rw [hts] at hsome; exact Option.noConfusion hsome
    | some t =>
      rw [hts] at hsome
      simp only [Option.some.injEq] at hsome
      rw [← hsome]
      exact ⟨le_max_left _ _, max_le hd (min_le_left _ _)⟩
  · exact (stableSort_pairwise _ lustLe_trans lustLe_total _).imp
      (fun h => of_decide_eq_true h)

/-! ### Row count, ordering, and order independence -/

/-- Unfolding of the successful branch of `buildBossFightRows`. -/
theorem buildBossFightRows_ok_eq (fights : List RawFight) (vodStartSeconds : ℚ)
    (h : (fights.filter
        (fun fight => decide (fight.encounterID.getD 0 > 0))).isEmpty = false) :
    buildBossFightRows fights vodStartSeconds =
      Except.ok ((stableSort (fun a b => decide (a.startTime ≤ b.startTime))
          (fights.filter (fun fight => decide (fight.encounterID.getD 0 > 0)))).enum.map
        (fightRowOf (vodStartSeconds -
          ((stableSort (fun a b => decide (a.startTime ≤ b.startTime))
            (fights.filter (fun fight =>
              decide (fight.encounterID.getD 0 > 0)))).headD default).startTime / 1000))) := by
  simp only [buildBossFightRows, h]
  rfl

/-- The `videoSeconds` field of a produced row. -/
theorem fightRowOf_videoSeconds (off : ℚ) (p : ℕ × RawFight) :
    (fightRowOf off p).videoSeconds = max 0 (p.2.startTime / 1000 + off) := rfl

/-- Transitivity of the decided `startTime` comparator. -/
theorem fightLe_trans : ∀ a b c : RawFight,
    decide (a.startTime ≤ b.startTime) = true →
    decide (b.startTime ≤ c.startTime) = true →
    decide (a.startTime ≤ c.startTime) = true := by
  intro a b c hab hbc
  simp only [decide_eq_true_eq] at *
  exact le_trans hab hbc

/-- Totality of the decided `startTime` comparator. -/
theorem fightLe_total : ∀ a b : RawFight,
    decide (a.startTime ≤ b.startTime) = true ∨
    decide (b.startTime ≤ a.startTime) = true := by
  intro a b
  simp only [decide_eq_true_eq]
  exact le_total _ _

/-- C1 (amended): with at least one boss fight, `buildBossFightRows` returns
one row per fight with `encounterID > 0`, sorted by ascending
`videoSeconds`; and provided the boss fights' `startTime` values are
pairwise distinct, the output does not depend on the order of the input
list. -/
theorem buildBossFightRows_pullCount_sorted_orderFree
    (fights fights2 : List RawFight) (vodStartSeconds : ℚ)
    (hex : ∃ f ∈ fights, f.encounterID.getD 0 > 0) :
    (∃ rows, buildBossFightRows fights vodStartSeconds = Except.ok rows ∧
      rows.length =
        (fights.filter (fun fight => decide (fight.encounterID.getD 0 > 0))).length ∧
      rows.Pairwise (fun a b => a.videoSeconds ≤ b.videoSeconds)) ∧
    ((fights.filter (fun fight => decide (fight.encounterID.getD 0 > 0))).Pairwise
        (fun a b => a.startTime ≠ b.startTime) →
      List.Perm fights fights2 →
      buildBossFightRows fights2 vodStartSeconds =
        buildBossFightRows fights vodStartSeconds) := by
  have hbf : fights.filter (fun fight => decide (fight.encounterID.getD 0 > 0)) ≠ [] := by
    rcases hex with ⟨f, hf, hp⟩
    intro h
    rw [List.filter_eq_nil_iff] at h
    exact h f hf (by simpa using hp)
  have hne : (fights.filter
      (fun fight => decide (fight.encounterID.getD 0 > 0))).isEmpty = false := by
    simpa [List.isEmpty_iff] using hbf
  constructor
  · refine ⟨_, buildBossFightRows_ok_eq fights vodStartSeconds hne, ?_, ?_⟩
    · rw [List.length_map, List.enum_length, length_stableSort]
    · have hsorted := stableSort_pairwise
        (fun a b : RawFight => decide (a.startTime ≤ b.startTime))
        fightLe_trans fightLe_total
        (fights.filter (fun fight => decide (fight.encounterID.getD 0 > 0)))
      have hsorted2 : (stableSort (fun a b : RawFight => decide (a.startTime ≤ b.startTime))
          (fights.filter (fun fight =>
            decide (fight.encounterID.getD 0 > 0)))).Pairwise
          (fun a b => a.startTime ≤ b.startTime) :=
        hsorted.imp (fun h => of_decide_eq_true h)
      rw [List.pairwise_map]
      refine (pairwise_enum _ hsorted2).imp ?_
      intro p q hpq
      rw [fightRowOf_videoSeconds, fightRowOf_videoSeconds]
      refine max_le_max le_rfl (add_le_add_right ?_ _)
      exact (div_le_div_iff_of_pos_right (by norm_num : (0:ℚ) < 1000)).mpr hpq
  · intro hdist hperm
    have hfperm : List.Perm
        (fights.filter (fun fight => decide (fight.encounterID.getD 0 > 0)))
        (fights2.filter (fun fight => decide (fight.encounterID.getD 0 > 0))) :=
      hperm.filter _
    have hbf2 : fights2.filter
        (fun fight => decide (fight.encounterID.getD 0 > 0)) ≠ [] := by
      intro h
      rw [h] at hfperm
      exact hbf hfperm.eq_nil
    have hne2 : (fights2.filter
        (fun fight => decide (fight.encounterID.getD 0 > 0))).isEmpty = false := by
      simpa [List.isEmpty_iff] using hbf2
    have hsperm : List.Perm
        (stableSort (fun a b : RawFight => decide (a.startTime ≤ b.startTime))
          (fights.filter (fun fight => decide (fight.encounterID.getD 0 > 0))))
        (stableSort (fun a b : RawFight => decide (a.startTime ≤ b.startTime))
          (fights2.filter (fun fight => decide (fight.encounterID.getD 0 > 0)))) :=
      ((stableSort_perm _ _).trans hfperm).trans (stableSort_perm _ _).symm
    have hdistSym : ∀ {x y : RawFight},
        x.startTime ≠ y.startTime → y.startTime ≠ x.startTime :=
      fun h => h.symm
    have hd1 : (stableSort (fun a b : RawFight => decide (a.startTime ≤ b.startTime))
        (fights.filter (fun fight =>
          decide (fight.encounterID.getD 0 > 0)))).Pairwise
        (fun a b => a.startTime ≠ b.startTime) :=
      ((stableSort_perm _ _).pairwise_iff hdistSym).mpr hdist
    have hd2 : (stableSort (fun a b : RawFight => decide (a.startTime ≤ b.startTime))
        (fights2.filter (fun fight =>
          decide (fight.encounterID.getD 0 > 0)))).Pairwise
        (fun a b => a.startTime ≠ b.startTime) :=
      ((stableSort_perm _ _).pairwise_iff hdistSym).mpr
        ((hfperm.pairwise_iff hdistSym).mp hdist)
    have hs1 := (stableSort_pairwise
        (fun a b : RawFight => decide (a.startTime ≤ b.startTime))
        fightLe_trans fightLe_total
        (fights.filter (fun fight => decide (fight.encounterID.getD 0 > 0)))).imp
      (fun h => of_decide_eq_true h)
    have hs2 := (stableSort_pairwise
        (fun a b : RawFight => decide (a.startTime ≤ b.startTime))
        fightLe_trans fightLe_total
        (fights2.filter (fun fight => decide (fight.encounterID.getD 0 > 0)))).imp
      (fun h => of_decide_eq_true h)
    have heq : stableSort (fun a b : RawFight => decide (a.startTime ≤ b.startTime))
          (fights.filter (fun fight => decide (fight.encounterID.getD 0 > 0))) =
        stableSort (fun a b : RawFight => decide (a.startTime ≤ b.startTime))
          (fights2.filter (fun fight => decide (fight.encounterID.getD 0 > 0))) :=
      @List.eq_of_perm_of_sorted RawFight
        (fun a b => a.startTime < b.startTime)
        ⟨fun _ _ h1 h2 => absurd (lt_trans h1 h2) (lt_irrefl _)⟩ _ _ hsperm
        ((hs1.and hd1).imp (fun h => lt_of_le_of_ne h.1 h.2))
        ((hs2.and hd2).imp (fun h => lt_of_le_of_ne h.1 h.2))
    rw [buildBossFightRows_ok_eq fights vodStartSeconds hne,
      buildBossFightRows_ok_eq fights2 vodStartSeconds hne2, ← heq]

/-- Two boss fights that start at the same report-clock millisecond. -/
def tieFightA : RawFight :=
  { name := "A", encounterID := some 1, startTime := 5, endTime := 5 }

/-- Second tied fight, distinguishable by name. -/
def tieFightB : RawFight :=
  { name := "B", encounterID := some 1, startTime := 5, endTime := 5 }

/-- C1 counterexample: with two boss fights sharing a `startTime`, the
stable sort keeps the input order, so the output of `buildBossFightRows`
does depend on the positions of the fights in the input list. -/
theorem buildBossFightRows_inputOrder_matters :
    buildBossFightRows [tieFightA, tieFightB] 0 ≠
      buildBossFightRows [tieFightB, tieFightA] 0 := by
  intro h
  have h2 := congrArg
    (fun e => (Except.toOption e).map (List.map (fun r => r.bossName))) h
  exact absurd h2 (by decide)

/-- A boss fight used as a concrete witness input. -/
def wFightA : RawFight :=
  { name := "A", encounterID := some 1, startTime := 1, endTime := 3 }

/-- A second witness boss fight with a distinct `startTime`. -/
def wFightB : RawFight :=
  { name := "B", encounterID := some 1, startTime := 2, endTime := 3 }

/-- Witness for the amended C1 theorem at a concrete input. -/
theorem buildBossFightRows_pullCount_sorted_orderFree_witness :
    (∃ f ∈ [wFightA, wFightB], f.encounterID.getD 0 > 0) ∧
    ((∃ rows, buildBossFightRows [wFightA, wFightB] 7 = Except.ok rows ∧
      rows.length = ([wFightA, wFightB].filter
        (fun fight => decide (fight.encounterID.getD 0 > 0))).length ∧
      rows.Pairwise (fun a b => a.videoSeconds ≤ b.videoSeconds)) ∧
    (([wFightA, wFightB].filter
        (fun fight => decide (fight.encounterID.getD 0 > 0))).Pairwise
          (fun a b => a.startTime ≠ b.startTime) →
      List.Perm [wFightA, wFightB] [wFightB, wFightA] →
      buildBossFightRows [wFightB, wFightA] 7 =
        buildBossFightRows [wFightA, wFightB] 7)) :=
  ⟨by decide,
    buildBossFightRows_pullCount_sorted_orderFree
      [wFightA, wFightB] [wFightB, wFightA] 7 (by decide)⟩

/-! ### Frame property of `buildBossFightRows` over the heap model -/

/-- C10: a call to `buildBossFightRows` leaves the caller's fights array
untouched (the filter allocates a fresh array and only that fresh array is
sorted in place), and the heap-aware run returns exactly the rows of the
pure function. -/
theorem buildBossFightRowsHeap_frame (h : FightHeap) (r : ℕ) (vodStartSeconds : ℚ)
    (hr : r < h.length) :
    heapRead (buildBossFightRowsHeap h r vodStartSeconds).1 r = heapRead h r ∧
    (buildBossFightRowsHeap h r vodStartSeconds).2 =
      buildBossFightRows (heapRead h r) vodStartSeconds := by
  have hne : h.length ≠ r := (Nat.ne_of_lt hr).symm
  have key1 : ∀ a : List RawFight, heapRead (h ++ [a]) r = heapRead h r := by
    intro a
    simp only [heapRead, List.getD_eq_getElem?_getD, List.getElem?_append, hr, if_true]
  have key2 : ∀ a b : List RawFight,
      heapRead (heapWrite (h ++ [a]) h.length b) r = heapRead h r := by
    intro a b
    simp only [heapRead, heapWrite, List.getD_eq_getElem?_getD,
      List.getElem?_set_ne hne, List.getElem?_append, hr, if_true]
  have keyRead : ∀ a : List RawFight, heapRead (h ++ [a]) h.length = a := by
    intro a
    simp only [heapRead, List.getD_eq_getElem?_getD, List.getElem?_concat_length,
      Option.getD_some]
  have keySet : ∀ a b : List RawFight,
      heapRead (heapWrite (h ++ [a]) h.length b) h.length = b := by
    intro a b
    have hlen : h.length < (h ++ [a]).length := by
      simp [List.length_append]
    simp only [heapRead, heapWrite, List.getD_eq_getElem?_getD,
      List.getElem?_set_self hlen, Option.getD_some]
  by_cases hE : ((heapRead h r).filter
      (fun fight => decide (fight.encounterID.getD 0 > 0))).isEmpty = true
  · constructor
    · simp only [buildBossFightRowsHeap, heapAlloc, keyRead, hE, if_true]
      exact key1 _
    · simp only [buildBossFightRowsHeap, buildBossFightRows, heapAlloc, keyRead, hE,
        if_true]
  · rw [Bool.not_eq_true] at hE
    constructor
    · simp only [buildBossFightRowsHeap, heapAlloc, keyRead, hE, Bool.false_eq_true,
        if_false]
      exact key2 _ _
    · simp only [buildBossFightRowsHeap, buildBossFightRows, heapAlloc, keyRead, keySet,
        hE, Bool.false_eq_true, if_false]

/-- A report whose only fight is a boss fight. -/
def onlyBossFight : RawFight :=
  { name := "W", encounterID := some 2, startTime := 10, endTime := 20 }

/-- Witness for the no-boss-fights characterization at a concrete input. -/
theorem buildBossFightRows_error_iff_witness :
    (∃ f ∈ [onlyBossFight], 0 < f.encounterID.getD 0) ∧
    (∃ rows, buildBossFightRows [onlyBossFight] 0 = Except.ok rows ∧ rows ≠ []) :=
  ⟨by decide, (buildBossFightRows_error_iff [onlyBossFight] 0).2 (by decide)⟩

/-- A fight carrying one death event and one bloodlust event. -/
def deathFight : RawFight :=
  { name := "D", encounterID := some 1, startTime := 0, endTime := 3000,
    deaths := some [{ timestamp := some 1000, targetName := some "Y" }],
    bloodlusts := some [{ timestamp := some 500, sourceName := some "Z" }] }

/-- Witness for the marker range/sortedness theorem at a concrete input. -/
theorem markers_range_and_sorted_witness :
    (0 : ℚ) ≤ 3 ∧
    ((∀ mk ∈ buildDeathMarkers deathFight 3,
        0 ≤ mk.offsetSeconds ∧ mk.offsetSeconds ≤ 3) ∧
    (buildDeathMarkers deathFight 3).Pairwise
      (fun a b => a.offsetSeconds ≤ b.offsetSeconds) ∧
    (∀ mk ∈ buildBloodlustMarkers deathFight 3,
        0 ≤ mk.offsetSeconds ∧ mk.offsetSeconds ≤ 3) ∧
    (buildBloodlustMarkers deathFight 3).Pairwise
      (fun a b => a.offsetSeconds ≤ b.offsetSeconds)) :=
  ⟨by decide, markers_range_and_sorted deathFight 3 (by decide)⟩

/-- Witness for the frame property at a concrete one-array heap. -/
theorem buildBossFightRowsHeap_frame_witness :
    0 < ([[wFightA]] : FightHeap).length ∧
    (heapRead (buildBossFightRowsHeap [[wFightA]] 0 4).1 0 = heapRead [[wFightA]] 0 ∧
      (buildBossFightRowsHeap [[wFightA]] 0 4).2 =
        buildBossFightRows (heapRead [[wFightA]] 0) 4) :=
  ⟨by decide, buildBossFightRowsHeap_frame [[wFightA]] 0 4 (by decide)⟩

/-! ### The phase-segment partition invariant -/

/-- The segments chain from `a` to `b`: the first segment starts at `a`,
consecutive segments share their endpoint, and the last ends at `b`
(an empty chain forces `b = a`). -/
def ChainFrom (a : ℚ) : List PhaseSegment → ℚ → Prop
  | [], b => b = a
  | s :: rest, b => s.startSeconds = a ∧ ChainFrom s.endSeconds rest b

/-- Appending a segment that starts at a chain's endpoint extends the
chain to that segment's endpoint. -/
theorem chainFrom_append (s : PhaseSegment) :
    ∀ (l : List PhaseSegment) (a b : ℚ), ChainFrom a l b → s.startSeconds = b →
      ChainFrom a (l ++ [s]) s.endSeconds
  | [], a, b, hab, hs => by
    subst hab
    simp only [List.nil_append, ChainFrom]
    exact ⟨hs, trivial⟩
  | s0 :: rest, a, b, hab, hs =>
    ⟨hab.1, chainFrom_append s rest _ b hab.2 hs⟩

/-- The head of a non-empty chain starts at the chain's origin. -/
theorem chainFrom_head (a b : ℚ) (l : List PhaseSegment) (h : ChainFrom a l b) :
    ∀ s, l.head? = some s → s.startSeconds = a := by
  cases l with
  | nil => intro s hs; exact Option.noConfusion hs
  | cons s0 rest =>
    intro s hs
    cases hs
    exact h.1

/-- The last segment of a non-empty chain ends at the chain's endpoint. -/
theorem chainFrom_getLast (a b : ℚ) :
    ∀ (l : List PhaseSegment), ChainFrom a l b →
      ∀ s, l.getLast? = some s → s.endSeconds = b := by
  intro l
  induction l generalizing a with
  | nil => intro _ s hs; exact Option.noConfusion hs
  | cons s0 rest ih =>
    intro h s hs
    cases rest with
    | nil =>
      cases hs
      exact h.2.symm
    | cons s1 rest2 =>
      exact ih s0.endSeconds h.2 s (by simpa using hs)

/-- Adjacent segments of a chain share their endpoint. -/
theorem chainFrom_adjacent (a b : ℚ) :
    ∀ (l : List PhaseSegment), ChainFrom a l b →
      ∀ (i : ℕ) (s1 s2 : PhaseSegment), l.get? i = some s1 →
        l.get? (i + 1) = some s2 → s1.endSeconds = s2.startSeconds := by
  intro l
  induction l generalizing a with
  | nil => intro _ i s1 s2 h1 _; exact Option.noConfusion h1
  | cons s0 rest ih =>
    intro h i s1 s2 h1 h2
    cases i with
    | zero =>
      cases h1
      exact (chainFrom_head _ b rest h.2 s2
        (by simpa [List.head?_eq_getElem?] using h2)).symm
    | succ j =>
      exact ih s0.endSeconds h.2 j s1 s2 (by simpa using h1) (by simpa using h2)

/-- The loop invariant of the transition walk: `lastStart` stays inside
`[0, durationSeconds]`, the segments built so far chain from `0` to
`lastStart`, and every marker lies inside `[0, durationSeconds]`. -/
def PhaseInv (d : ℚ) (st : PhaseBuildState) : Prop :=
  0 ≤ st.lastStart ∧ st.lastStart ≤ d ∧ ChainFrom 0 st.segments st.lastStart ∧
    ∀ mk ∈ st.markers, 0 ≤ mk.offsetSeconds ∧ mk.offsetSeconds ≤ d

/-- `clampSeconds` yields a value in `[0, maxSeconds]` and is monotone. -/
theorem clampSeconds_bounds (v d : ℚ) (hd : 0 ≤ d) :
    0 ≤ clampSeconds v d ∧ clampSeconds v d ≤ d :=
  ⟨le_max_left _ _, max_le hd (min_le_left _ _)⟩

/-- Monotonicity of `clampSeconds` in the clamped value. -/
theorem clampSeconds_mono (v w d : ℚ) (h : v ≤ w) :
    clampSeconds v d ≤ clampSeconds w d :=
  max_le_max le_rfl (min_le_min le_rfl h)

/-- Field equations of one loop step. -/
theorem phaseStep_lastStart (d : ℚ) (st : PhaseBuildState) (e : PhaseTransitionInfo) :
    (phaseStep d st e).lastStart = clampSeconds e.seconds d := rfl

/-- The segments after one loop step. -/
theorem phaseStep_segments (d : ℚ) (st : PhaseBuildState) (e : PhaseTransitionInfo) :
    (phaseStep d st e).segments =
      if max 0 st.lastStart < min d (clampSeconds e.seconds d) then
        st.segments ++
          [{ label := jsOrElseStr st.currentLabel
               ("P" ++ jsStringOfNat (st.segments.length + 1)),
             startSeconds := max 0 st.lastStart,
             endSeconds := min d (clampSeconds e.seconds d),
             isIntermission := some st.currentIsIntermission }]
      else st.segments := rfl

/-- The markers after one loop step. -/
theorem phaseStep_markers (d : ℚ) (st : PhaseBuildState) (e : PhaseTransitionInfo) :
    (phaseStep d st e).markers =
      if 0 ≤ clampSeconds e.seconds d ∧ clampSeconds e.seconds d ≤ d then
        st.markers ++
          [{ label := (if e.isIntermission || labelIndicatesIntermission e.label then
               ("I" ++ jsStringOfNat (st.intermissionCount + 1), st.phaseCount,
                 st.intermissionCount + 1)
             else
               ("P" ++ jsStringOfNat st.phaseCount, st.phaseCount + 1,
                 st.intermissionCount)).1,
             offsetSeconds := clampSeconds e.seconds d,
             isIntermission := some e.isIntermission }]
      else st.markers := rfl

/-- One loop step preserves the invariant and moves `lastStart` to the
clamped transition time. -/
theorem phaseStep_inv (d : ℚ) (hd : 0 ≤ d) (st : PhaseBuildState)
    (e : PhaseTransitionInfo) (hinv : PhaseInv d st)
    (hle : st.lastStart ≤ clampSeconds e.seconds d) :
    PhaseInv d (phaseStep d st e) ∧
      (phaseStep d st e).lastStart = clampSeconds e.seconds d := by
  rcases hinv with ⟨h0, hdle, hchain, hmk⟩
  rcases clampSeconds_bounds e.seconds d hd with ⟨ht0, htd⟩
  have hstart : max 0 st.lastStart = st.lastStart := max_eq_right h0
  have hend : min d (clampSeconds e.seconds d) = clampSeconds e.seconds d :=
    min_eq_right htd
  refine ⟨?_, phaseStep_lastStart d st e⟩
  unfold PhaseInv
  rw [phaseStep_lastStart, phaseStep_segments, phaseStep_markers, hstart, hend]
  refine ⟨ht0, htd, ?_, ?_⟩
  · by_cases hlt : st.lastStart < clampSeconds e.seconds d
    · rw [if_pos hlt]
      exact chainFrom_append _ st.segments 0 st.lastStart hchain rfl
    · rw [if_neg hlt]
      have heq : clampSeconds e.seconds d = st.lastStart :=
        le_antisymm (not_lt.mp hlt) hle
      rw [heq]
      exact hchain
  · intro mk hmkm
    rw [if_pos ⟨ht0, htd⟩] at hmkm
    rcases List.mem_append.mp hmkm with hold | hnew
    · exact hmk mk hold
    · rw [List.mem_singleton] at hnew
      rw [hnew]
      exact ⟨ht0, htd⟩

/-- Folding the loop over sorted transitions preserves the invariant. -/
theorem phaseFold_inv (d : ℚ) (hd : 0 ≤ d) :
    ∀ (ts : List PhaseTransitionInfo) (st : PhaseBuildState),
      ts.Pairwise (fun a b => a.seconds ≤ b.seconds) →
      (∀ e ∈ ts, st.lastStart ≤ clampSeconds e.seconds d) →
      PhaseInv d st → PhaseInv d (ts.foldl (phaseStep d) st)
  | [], st, _, _, hinv => hinv
  | e :: rest, st, hsort, hle, hinv => by
    rcases List.pairwise_cons.mp hsort with ⟨hhead, htail⟩
    rcases phaseStep_inv d hd st e hinv (hle e (List.mem_cons_self e rest)) with
      ⟨hinv2, hlast2⟩
    refine phaseFold_inv d hd rest (phaseStep d st e) htail ?_ hinv2
    intro e2 he2
    rw [hlast2]
    exact clampSeconds_mono _ _ _ (hhead e2 he2)

/-- Transitivity of the decided `seconds` comparator on transitions. -/
theorem transLe_trans : ∀ a b c : PhaseTransitionInfo,
    decide (a.seconds ≤ b.seconds) = true →
    decide (b.seconds ≤ c.seconds) = true →
    decide (a.seconds ≤ c.seconds) = true := by
  intro a b c hab hbc
  simp only [decide_eq_true_eq] at *
  exact le_trans hab hbc

/-- Totality of the decided `seconds` comparator on transitions. -/
theorem transLe_total : ∀ a b : PhaseTransitionInfo,
    decide (a.seconds ≤ b.seconds) = true ∨
    decide (b.seconds ≤ a.seconds) = true := by
  intro a b
  simp only [decide_eq_true_eq]
  exact le_total _ _

/-- Chain, non-emptiness and marker bounds for the full reconstruction. -/
theorem buildPhaseSegments_chain (fight : RawFight) (d : ℚ) (hd : 0 ≤ d) :
    ChainFrom 0 (buildPhaseSegmentsAndMarkers fight d).1 d ∧
    (buildPhaseSegmentsAndMarkers fight d).1 ≠ [] ∧
    (∀ mk ∈ (buildPhaseSegmentsAndMarkers fight d).2,
      0 ≤ mk.offsetSeconds ∧ mk.offsetSeconds ≤ d) := by
  by_cases hc : fight.phaseTransitions.getD [] = [] ∨ d ≤ 0
  · rw [buildPhaseSegmentsAndMarkers, if_pos hc]
    refine ⟨⟨rfl, rfl⟩, by simp, by simp⟩
  · set ts := stableSort (fun a b => decide (a.seconds ≤ b.seconds))
      (((fight.phaseTransitions.getD []).map
        (fun v => normalizeTransition v fight.startTime
          (buildPhaseMetadataMap fight.phaseMetadata))).filterMap id) with hts
    set st := ts.foldl (phaseStep d) phaseInit with hst
    have hsorted : ts.Pairwise (fun a b => a.seconds ≤ b.seconds) := by
      rw [hts]
      exact (stableSort_pairwise _ transLe_trans transLe_total _).imp
        (fun h => of_decide_eq_true h)
    have hinit : PhaseInv d phaseInit := ⟨le_refl 0, hd, rfl, by simp [phaseInit]⟩
    have hinv : PhaseInv d st :=
      phaseFold_inv d hd ts phaseInit hsorted (fun e _ => le_max_left 0 _) hinit
    rcases hinv with ⟨h0, hsd, hchain, hmks⟩
    rw [buildPhaseSegmentsAndMarkers, if_neg hc]
    simp only [← hts, ← hst]
    by_cases hlt : st.lastStart < d
    · rw [if_pos hlt, if_neg (by simp)]
      refine ⟨?_, by simp, hmks⟩
      exact chainFrom_append
        { label := if fight.kill then "Kill"
            else jsOrElseStr st.currentLabel
              ("P" ++ jsStringOfNat (st.segments.length + 1)),
          startSeconds := max 0 st.lastStart, endSeconds := d,
          isIntermission :=
            some (if fight.kill then false else st.currentIsIntermission) }
        st.segments 0 st.lastStart hchain (max_eq_right h0)
    · have hld : st.lastStart = d := le_antisymm hsd (not_lt.mp hlt)
      rw [if_neg hlt]
      by_cases hE : st.segments = []
      · rw [if_pos hE]
        exact ⟨⟨rfl, rfl⟩, by simp, hmks⟩
      · rw [if_neg hE]
        rw [hld] at hchain
        exact ⟨hchain, hE, hmks⟩

/-- C3: the phase segments partition `[0, durationSeconds]` — the list is
non-empty, the first segment starts at `0`, the last ends at
`durationSeconds`, adjacent segments share their endpoint (no gap, no
overlap), and every phase marker lies inside `[0, durationSeconds]`. -/
theorem buildPhaseSegments_partition (fight : RawFight) (durationSeconds : ℚ)
    (hd : 0 ≤ durationSeconds) :
    (buildPhaseSegmentsAndMarkers fight durationSeconds).1 ≠ [] ∧
    (∀ s, (buildPhaseSegmentsAndMarkers fight durationSeconds).1.head? = some s →
      s.startSeconds = 0) ∧
    (∀ s, (buildPhaseSegmentsAndMarkers fight durationSeconds).1.getLast? = some s →
      s.endSeconds = durationSeconds) ∧
    (∀ (i : ℕ) (s1 s2 : PhaseSegment),
      (buildPhaseSegmentsAndMarkers fight durationSeconds).1.get? i = some s1 →
      (buildPhaseSegmentsAndMarkers fight durationSeconds).1.get? (i + 1) = some s2 →
      s1.endSeconds = s2.startSeconds) ∧
    (∀ mk ∈ (buildPhaseSegmentsAndMarkers fight durationSeconds).2,
      0 ≤ mk.offsetSeconds ∧ mk.offsetSeconds ≤ durationSeconds) := by
  rcases buildPhaseSegments_chain fight durationSeconds hd with ⟨hchain, hne, hmk⟩
  exact ⟨hne, chainFrom_head _ _ _ hchain, chainFrom_getLast _ _ _ hchain,
    fun i s1 s2 => chainFrom_adjacent _ _ _ hchain i s1 s2, hmk⟩

/-- A fight with one phase transition, used as a concrete witness input. -/
def phaseFightW : RawFight :=
  { name := "PW", encounterID := some 1, startTime := 0, endTime := 3000,
    phaseTransitions := some [.obj { startTime := some 1000, label := some "P2" }] }

/-- Witness for the partition theorem at a concrete input. -/
theorem buildPhaseSegments_partition_witness :
    (0 : ℚ) ≤ 3 ∧
    ((buildPhaseSegmentsAndMarkers phaseFightW 3).1 ≠ [] ∧
    (∀ s, (buildPhaseSegmentsAndMarkers phaseFightW 3).1.head? = some s →
      s.startSeconds = 0) ∧
    (∀ s, (buildPhaseSegmentsAndMarkers phaseFightW 3).1.getLast? = some s →
      s.endSeconds = 3) ∧
    (∀ (i : ℕ) (s1 s2 : PhaseSegment),
      (buildPhaseSegmentsAndMarkers phaseFightW 3).1.get? i = some s1 →
      (buildPhaseSegmentsAndMarkers phaseFightW 3).1.get? (i + 1) = some s2 →
      s1.endSeconds = s2.startSeconds) ∧
    (∀ mk ∈ (buildPhaseSegmentsAndMarkers phaseFightW 3).2,
      0 ≤ mk.offsetSeconds ∧ mk.offsetSeconds ≤ 3)) :=
  ⟨by decide, buildPhaseSegments_partition phaseFightW 3 (by decide)⟩

/-! ### Multi-clip offset resolver -/

/-- Spec-side statement of the offset rule: writing `base` for the minimum
`firstPullSeconds` among the produced clips, every clip's `offsetSeconds`
equals its `firstPullSeconds` minus `base` and is non-negative, and (when
any clips exist) some clip sits exactly at the minimum with offset `0`. -/
def videoOffsetsSpec (opts : List VideoOption) : Bool :=
  let base := ((opts.map (fun o => o.firstPullSeconds)).min?).getD 0
  opts.all (fun o => decide (o.offsetSeconds = o.firstPullSeconds - base) &&
    decide (0 ≤ o.offsetSeconds)) &&
  (opts.isEmpty || opts.any (fun o => decide (o.firstPullSeconds = base) &&
    decide (o.offsetSeconds = 0)))

/-- Transitivity of the decided comparator on parsed video entries. -/
theorem videoLe_trans : ∀ a b c : ParsedVideoEntry,
    decide (a.firstPullSeconds ≤ b.firstPullSeconds) = true →
    decide (b.firstPullSeconds ≤ c.firstPullSeconds) = true →
    decide (a.firstPullSeconds ≤ c.firstPullSeconds) = true := by
  intro a b c hab hbc
  simp only [decide_eq_true_eq] at *
  exact le_trans hab hbc

/-- Totality of the decided comparator on parsed video entries. -/
theorem videoLe_total : ∀ a b : ParsedVideoEntry,
    decide (a.firstPullSeconds ≤ b.firstPullSeconds) = true ∨
    decide (b.firstPullSeconds ≤ a.firstPullSeconds) = true := by
  intro a b
  simp only [decide_eq_true_eq]
  exact le_total _ _

/-- The minimum of a list whose head is a lower bound is the head. -/
theorem min?_eq_head_of_le (a : ℚ) (l : List ℚ) (h : ∀ b ∈ l, a ≤ b) :
    (a :: l).min? = some a := by
  haveI : Std.Antisymm (fun x1 x2 : ℚ => x1 ≤ x2) :=
    ⟨fun h1 h2 => le_antisymm h1 h2⟩
  rw [List.min?_eq_some_iff (fun x => le_refl x) (fun x y => min_choice x y)
    (fun x y z => le_min_iff)]
  exact ⟨List.mem_cons_self a l, by
    intro b hb
    rcases List.mem_cons.mp hb with rfl | hbl
    · exact le_refl b
    · exact h b hbl⟩

/-- C8: the multi-clip offset resolver is deterministic, and on success it
assigns every clip `offsetSeconds = firstPullSeconds − (minimum
firstPullSeconds)`, so all offsets are non-negative and the minimum-anchor
clip gets offset `0`. -/
theorem buildVideoOptions_offsets (entries : List VideoFormEntry) :
    buildVideoOptionsFromInputs entries = buildVideoOptionsFromInputs entries ∧
    videoOffsetsSpec ((buildVideoOptionsFromInputs entries).toOption.getD []) = true := by
  refine ⟨rfl, ?_⟩
  by_cases hT : ((entries.enum.map trimVideoEntry).filter
      (fun ie => decide (ie.2.url.data.length > 0))).isEmpty = true
  · rw [buildVideoOptionsFromInputs, if_pos hT]
    rfl
  · rw [Bool.not_eq_true] at hT
    cases hM : ((entries.enum.map trimVideoEntry).filter
        (fun ie => decide (ie.2.url.data.length > 0))).mapM parseVideoEntry with
    | error e =>
      rw [buildVideoOptionsFromInputs, if_neg (by rw [hT]; simp), hM]
      rfl
    | ok parsed =>
      rw [buildVideoOptionsFromInputs, if_neg (by rw [hT]; simp), hM]
      simp only []
      have hsorted := (stableSort_pairwise
        (fun a b : ParsedVideoEntry =>
          decide (a.firstPullSeconds ≤ b.firstPullSeconds))
        videoLe_trans videoLe_total parsed).imp
        (fun h => of_decide_eq_true h)
      cases hs : stableSort (fun a b : ParsedVideoEntry =>
          decide (a.firstPullSeconds ≤ b.firstPullSeconds)) parsed with
      | nil => rfl
      | cons e0 tl =>
        rw [hs] at hsorted
        rcases List.pairwise_cons.mp hsorted with ⟨hhead, _⟩
        simp only [Except.toOption, Option.getD_some, List.head?, Option.map_some',
          videoOffsetsSpec]
        have hmin : (((e0 :: tl).map (fun e =>
            ({ url := e.url, source := e.source,
               firstPullSeconds := e.firstPullSeconds,
               offsetSeconds := e.firstPullSeconds - e0.firstPullSeconds,
               label := e.label, characterName := e.characterName } : VideoOption))).map
              (fun o => o.firstPullSeconds)).min? = some e0.firstPullSeconds := by
          rw [List.map_map]
          simp only [List.map_cons, Function.comp]
          exact min?_eq_head_of_le e0.firstPullSeconds _ (by
            intro b hb
            rcases List.mem_map.mp hb with ⟨e, hel, rfl⟩
            exact hhead e hel)
        rw [Bool.and_eq_true]
        constructor
        · simp only [hmin, Option.getD_some, List.all_eq_true]
          intro o ho
          rcases List.mem_map.mp ho with ⟨e, hel, rfl⟩
          simp only [Bool.and_eq_true, decide_eq_true_eq]
          refine ⟨by trivial, ?_⟩
          rcases List.mem_cons.mp hel with rfl | htl
          · simp
          · simp only [sub_nonneg]
            exact hhead e htl
        · simp only [hmin, Option.getD_some, List.any_eq_true, Bool.or_eq_true]
          right
          refine ⟨{ url := e0.url, source := e0.source,
                     firstPullSeconds := e0.firstPullSeconds,
                     offsetSeconds := e0.firstPullSeconds - e0.firstPullSeconds,
                     label := e0.label, characterName := e0.characterName }, ?_, ?_⟩
          · exact List.mem_map.mpr ⟨e0, List.mem_cons_self e0 tl, rfl⟩
          · simp

/-- A concrete video form entry used as a witness input. -/
def videoEntryW : VideoFormEntry :=
  { url := "https://youtu.be/abcdefghijk", firstPull := "00:00:00", label := "main" }

/-- Witness for the offset-resolver theorem at a concrete input. -/
theorem buildVideoOptions_offsets_witness :
    buildVideoOptionsFromInputs [videoEntryW] =
      buildVideoOptionsFromInputs [videoEntryW] ∧
    videoOffsetsSpec
      ((buildVideoOptionsFromInputs [videoEntryW]).toOption.getD []) = true :=
  buildVideoOptions_offsets [videoEntryW]

/-! ### Scenario A -/

/-- First fight of Scenario A: a 60-second kill starting at 100000 ms. -/
def scenarioFight1 : RawFight :=
  { name := "Boss", encounterID := some 101, startTime := 100000,
    endTime := 160000, kill := true }

/-- Second fight of Scenario A: a 90-second wipe at 12.5% boss health. -/
def scenarioFight2 : RawFight :=
  { name := "Boss", encounterID := some 101, startTime := 220000,
    endTime := 310000, kill := false, bossPercentage := some 12.5 }

/-- C2: Scenario A — with the anchor at 60 seconds, the two rows carry
pull numbers 1 and 2, video offsets 60 and 180 seconds, durations 60 and 90
seconds, results `KILL` and `Wipe`, and the wipe reports 87.5% boss
progress. -/
theorem buildBossFightRows_scenarioA :
    ((buildBossFightRows [scenarioFight1, scenarioFight2] 60).toOption.getD []).map
      (fun r => (r.pull, r.videoSeconds, r.durationSeconds, r.result, r.bossProgress)) =
    [(1, 60, 60, "KILL", none), (2, 180, 90, "Wipe", some 87.5)] := by
  rw [buildBossFightRows_ok_eq [scenarioFight1, scenarioFight2] 60 (by decide)]
  have hsort : stableSort (fun a b : RawFight => decide (a.startTime ≤ b.startTime))
      ([scenarioFight1, scenarioFight2].filter
        (fun fight => decide (fight.encounterID.getD 0 > 0))) =
      [scenarioFight1, scenarioFight2] := rfl
  rw [hsort]
  simp only [Except.toOption, Option.getD_some, List.enum, List.enumFrom, List.map,
    List.headD, fightRowOf, extractBossPercentage, scenarioFight1, scenarioFight2,
    Option.map]
  norm_num [max_def]

/-! ### Scenario C and the marker intermission flag -/

/-- Rendering of the digit `1`. -/
theorem jsStringOfNat_one : jsStringOfNat 1 = "1" := by
  have hd : Nat.digits 10 1 = [1] := by simp
  rw [jsStringOfNat, natToDigits, if_neg (by norm_num), hd]
  rfl

/-- The Scenario C fight: a 40-second wipe with a single absolute-timestamp
transition labelled `Intermission 1` ten seconds in. -/
def scenarioCFight : RawFight :=
  { name := "C", encounterID := some 7, startTime := 0, endTime := 40000,
    kill := false,
    phaseTransitions :=
      some [.obj { startTime := some 10000, label := some "Intermission 1" }] }

/-- The normalized Scenario C transition record. -/
def scenarioCTrans : PhaseTransitionInfo :=
  { seconds := 10, label := some "I1", isIntermission := false, phaseId := none }

/-- The normalized Scenario C transition. -/
theorem scenarioC_normalize :
    normalizeTransition
      (.obj { startTime := some 10000, label := some "Intermission 1" }) 0 none =
      some scenarioCTrans := by
  rw [scenarioCTrans]
  have hnl : normalizePhaseLabel "Intermission 1" = "I1" := rfl
  simp only [normalizeTransition, getNumber, Option.some_orElse, Option.none_orElse,
    Option.map_some', hnl, Option.isSome_some, Option.getD_some, Option.none_bind,
    Bool.false_or, if_true]
  norm_num [max_def]

/-- The first segment of Scenario C. -/
def scenarioCSeg1 : PhaseSegment :=
  { label := "P1", startSeconds := 0, endSeconds := 10, isIntermission := some false }

/-- The second segment of Scenario C. -/
def scenarioCSeg2 : PhaseSegment :=
  { label := "I1", startSeconds := 10, endSeconds := 40, isIntermission := some true }

/-- The marker the code emits for Scenario C; note the `some false`
intermission flag. -/
def scenarioCMarker : PhaseMarker :=
  { label := "I1", offsetSeconds := 10, isIntermission := some false }

/-- The loop step on the Scenario C transition. -/
theorem scenarioC_step :
    phaseStep 40 phaseInit scenarioCTrans =
      { segments := [scenarioCSeg1], markers := [scenarioCMarker],
        lastStart := 10, currentLabel := some "I1", currentIsIntermission := true,
        phaseCount := 1, intermissionCount := 1 } := by
  rw [scenarioCTrans]
  have hlii : labelIndicatesIntermission (some "I1") = true := rfl
  have hclamp : clampSeconds (10 : ℚ) 40 = 10 := by
    rw [clampSeconds]
    norm_num [max_def, min_def]
  simp only [phaseStep, phaseInit, hclamp, hlii, Bool.false_or, if_true,
    jsStringOfNat_one, scenarioCSeg1, scenarioCMarker]
  norm_num [max_def, min_def]
  exact ⟨rfl, by rw [jsStringOfNat_one]; rfl⟩

/-- C4 (code behaviour at the Scenario C input): the Phase Reconstructor
produces the two expected segments `P1` (0–10, not an intermission) and
`I1` (10–40, an intermission), but the single marker it emits carries
`isIntermission := some false` — the explicit transition flag — rather than
the label-derived `true` the specification expects. -/
theorem buildPhaseSegments_scenarioC :
    buildPhaseSegmentsAndMarkers scenarioCFight 40 =
      ([scenarioCSeg1, scenarioCSeg2], [scenarioCMarker]) := by
  have hmeta : buildPhaseMetadataMap scenarioCFight.phaseMetadata = none := rfl
  have hmap : (scenarioCFight.phaseTransitions.getD []).map
      (fun v => normalizeTransition v scenarioCFight.startTime
        (buildPhaseMetadataMap scenarioCFight.phaseMetadata)) =
      [some scenarioCTrans] := by
    rw [show scenarioCFight.phaseTransitions.getD [] =
      [PhaseTransitionValue.obj
        { startTime := some 10000, label := some "Intermission 1" }] from rfl]
    rw [List.map_cons, List.map_nil, hmeta,
      show scenarioCFight.startTime = 0 from rfl, scenarioC_normalize]
  rw [buildPhaseSegmentsAndMarkers]
  rw [if_neg (by simp [scenarioCFight])]
  simp only []
  rw [hmap]
  rw [show List.filterMap id [some scenarioCTrans] = [scenarioCTrans] from rfl]
  rw [show stableSort
      (fun a b : PhaseTransitionInfo => decide (a.seconds ≤ b.seconds))
      [scenarioCTrans] = [scenarioCTrans] from rfl]
  rw [show List.foldl (phaseStep 40) phaseInit [scenarioCTrans] =
    phaseStep 40 phaseInit scenarioCTrans from rfl]
  rw [scenarioC_step]
  rw [if_pos (by norm_num : (10 : ℚ) < 40)]
  rw [if_neg (by simp)]
  have hjo : ∀ x : String, jsOrElseStr (some "I1") x = "I1" := fun _ => rfl
  simp only [List.singleton_append, Prod.mk.injEq, List.cons.injEq, hjo,
    Bool.false_eq_true, if_false, scenarioCSeg2, PhaseSegment.mk.injEq, and_true,
    true_and]
  norm_num [max_def]
  exact ⟨fun h => absurd h (by decide), rfl⟩

/-! ### Character and string lemmas for the timestamp round trip -/

/-- Two characters with different code points differ. -/
theorem char_ne_of_toNat {c d : Char} (h : c.toNat ≠ d.toNat) : c ≠ d :=
  fun he => h (congrArg Char.toNat he)

/-- A digit character is never equal to a non-digit character. -/
theorem digit_ne_char (c ch : Char) (h : isDigitChar c = true)
    (hch : isDigitChar ch = false) : c ≠ ch := by
  intro he
  subst he
  rw [h] at hch
  exact Bool.noConfusion hch

/-- Digit characters are not JavaScript whitespace. -/
theorem digit_not_ws (c : Char) (h : isDigitChar c = true) : isJsWs c = false := by
  simp only [isJsWs, Bool.or_eq_false_iff, decide_eq_false_iff_not]
  exact ⟨⟨⟨digit_ne_char c ' ' h (by decide), digit_ne_char c '\t' h (by decide)⟩,
    digit_ne_char c '\r' h (by decide)⟩, digit_ne_char c '\n' h (by decide)⟩

/-- `dropWhile` is the identity when the predicate fails everywhere. -/
theorem dropWhile_eq_self_of_false {p : Char → Bool} :
    ∀ {l : List Char}, (∀ c ∈ l, p c = false) → l.dropWhile p = l
  | [], _ => rfl
  | c :: t, h => by
    rw [List.dropWhile_cons, h c (List.mem_cons_self c t)]
    simp

/-- `takeWhile` keeps everything when the predicate holds everywhere. -/
theorem takeWhile_eq_self_of_true {p : Char → Bool} :
    ∀ {l : List Char}, (∀ c ∈ l, p c = true) → l.takeWhile p = l
  | [], _ => rfl
  | c :: t, h => by
    rw [List.takeWhile_cons, h c (List.mem_cons_self c t), if_pos rfl,
      takeWhile_eq_self_of_true (fun x hx => h x (List.mem_cons_of_mem c hx))]

/-- `dropWhile` drops everything when the predicate holds everywhere. -/
theorem dropWhile_eq_nil_of_true {p : Char → Bool} :
    ∀ {l : List Char}, (∀ c ∈ l, p c = true) → l.dropWhile p = []
  | [], _ => rfl
  | c :: t, h => by
    rw [List.dropWhile_cons, h c (List.mem_cons_self c t)]
    simpa using dropWhile_eq_nil_of_true (fun x hx => h x (List.mem_cons_of_mem c hx))

/-- `trim` is the identity on whitespace-free strings. -/
theorem trimList_eq_self {l : List Char} (h : ∀ c ∈ l, isJsWs c = false) :
    trimList l = l := by
  rw [trimList, dropWhile_eq_self_of_false h,
    dropWhile_eq_self_of_false (fun c hc => h c (List.mem_reverse.mp hc)),
    List.reverse_reverse]

/-- A colon-free list splits into itself. -/
theorem splitColonList_no_colon :
    ∀ {l : List Char}, (∀ c ∈ l, c ≠ ':') → splitColonList l = [l]
  | [], _ => rfl
  | c :: t, h => by
    rw [splitColonList, if_neg (h c (List.mem_cons_self c t)),
      splitColonList_no_colon (fun x hx => h x (List.mem_cons_of_mem c hx))]

/-- Splitting at an explicit colon after a colon-free chunk. -/
theorem splitColonList_append :
    ∀ {xs : List Char} (ys : List Char), (∀ c ∈ xs, c ≠ ':') →
      splitColonList (xs ++ ':' :: ys) = xs :: splitColonList ys
  | [], ys, _ => by
    rw [List.nil_append, splitColonList, if_pos rfl]
  | x :: xs, ys, h => by
    rw [List.cons_append, splitColonList,
      if_neg (h x (List.mem_cons_self x xs)),
      splitColonList_append ys (fun c hc => h c (List.mem_cons_of_mem x hc))]

/-- Prepending `'0'` does not change the decimal value. -/
theorem digitsVal_cons_zero (l : List Char) : digitsVal ('0' :: l) = digitsVal l := by
  have h0 : 10 * 0 + ('0'.toNat - 48) = 0 := rfl
  rw [digitsVal, digitsVal, List.foldl_cons, h0]

/-- Leading zero padding does not change the decimal value. -/
theorem digitsVal_replicate_zero (k : ℕ) (l : List Char) :
    digitsVal (List.replicate k '0' ++ l) = digitsVal l := by
  induction k with
  | zero => rfl
  | succ n ih => rw [List.replicate_succ, List.cons_append, digitsVal_cons_zero, ih]

/-- Appending one digit multiplies the value by ten and adds the digit. -/
theorem digitsVal_append_single (l : List Char) (c : Char) :
    digitsVal (l ++ [c]) = 10 * digitsVal l + (c.toNat - 48) := by
  rw [digitsVal, digitsVal, List.foldl_append, List.foldl_cons, List.foldl_nil]

/-- Code point of the digit character of `d < 10`. -/
theorem charOfDigit_toNat (d : ℕ) (h : d < 10) :
    (Char.ofNat (48 + d)).toNat = 48 + d := by
  interval_cases d <;> decide

/-- The character of a digit `d < 10` is a digit character. -/
theorem charOfDigit_isDigit (d : ℕ) (h : d < 10) :
    isDigitChar (Char.ofNat (48 + d)) = true := by
  interval_cases d <;> decide

/-- Reading back a little-endian digit list rendered most significant
first. -/
theorem digitsVal_ofDigits :
    ∀ (ds : List ℕ), (∀ d ∈ ds, d < 10) →
      digitsVal (ds.reverse.map (fun d => Char.ofNat (48 + d))) = Nat.ofDigits 10 ds
  | [], _ => by simp [digitsVal, Nat.ofDigits_nil]
  | d :: t, h => by
    rw [List.reverse_cons, List.map_append, List.map_cons, List.map_nil,
      digitsVal_append_single,
      digitsVal_ofDigits t (fun x hx => h x (List.mem_cons_of_mem d hx)),
      charOfDigit_toNat d (h d (List.mem_cons_self d t)), Nat.ofDigits_cons]
    omega

/-- Every character of `natToDigits n` is a digit. -/
theorem natToDigits_all_digit (n : ℕ) :
    ∀ c ∈ natToDigits n, isDigitChar c = true := by
  intro c hc
  rw [natToDigits] at hc
  by_cases hn : n = 0
  · rw [if_pos hn] at hc
    rcases List.mem_singleton.mp hc with rfl
    decide
  · rw [if_neg hn] at hc
    rcases List.mem_map.mp hc with ⟨d, hd, rfl⟩
    exact charOfDigit_isDigit d
      (Nat.digits_lt_base (by norm_num) (List.mem_reverse.mp hd))

/-- `natToDigits` never returns the empty list. -/
theorem natToDigits_ne_nil (n : ℕ) : natToDigits n ≠ [] := by
  rw [natToDigits]
  by_cases hn : n = 0
  · rw [if_pos hn]
    simp
  · rw [if_neg hn]
    simp only [ne_eq, List.map_eq_nil_iff, List.reverse_eq_nil_iff]
    exact Nat.digits_ne_nil_iff_ne_zero.mpr hn

/-- Reading back the decimal rendering of `n` gives `n`. -/
theorem digitsVal_natToDigits (n : ℕ) : digitsVal (natToDigits n) = n := by
  rw [natToDigits]
  by_cases hn : n = 0
  · rw [if_pos hn, hn]
    decide
  · rw [if_neg hn,
      digitsVal_ofDigits (Nat.digits 10 n)
        (fun d hd => Nat.digits_lt_base (by norm_num) hd),
      Nat.ofDigits_digits]

/-- `jsNumberCore` on a pure digit string reads the decimal value. -/
theorem jsNumberCore_digits (cs : List Char) (h1 : cs ≠ [])
    (h2 : ∀ c ∈ cs, isDigitChar c = true) :
    jsNumberCore cs = some ((digitsVal cs : ℕ) : ℚ) := by
  obtain ⟨c, t, rfl⟩ := List.exists_cons_of_ne_nil h1
  have hc : isDigitChar c = true := h2 c (List.mem_cons_self c t)
  have htake : ∀ (a b : Char), isDigitChar b = false → ¬((c :: t).take 2 = [a, b]) := by
    intro a b hb hct
    cases t with
    | nil => simp [List.take] at hct
    | cons c2 t2 =>
      simp only [List.take, List.cons.injEq, and_true] at hct
      exact digit_ne_char c2 b
        (h2 c2 (List.mem_cons_of_mem c (List.mem_cons_self c2 t2))) hb hct.2
  rw [jsNumberCore,
    if_neg (by
      simp only [List.head?_cons, Option.some.injEq]
      exact digit_ne_char c '+' hc (by decide)),
    if_neg (by
      simp only [List.head?_cons, Option.some.injEq]
      exact digit_ne_char c '-' hc (by decide)),
    parseUnsignedTop,
    if_neg (by
      rintro (h | h)
      · exact htake '0' 'x' (by decide) h
      · exact htake '0' 'X' (by decide) h),
    if_neg (by
      rintro (h | h)
      · exact htake '0' 'o' (by decide) h
      · exact htake '0' 'O' (by decide) h),
    if_neg (by
      rintro (h | h)
      · exact htake '0' 'b' (by decide) h
      · exact htake '0' 'B' (by decide) h),
    parseInfOrDec,
    if_neg (by
      intro h
      rw [show "Infinity".data = 'I' :: "nfinity".data from rfl] at h
      injection h with h1 _
      exact digit_ne_char c 'I' hc (by decide) h1),
    parseDec]
  simp only [takeWhile_eq_self_of_true h2, dropWhile_eq_nil_of_true h2,
    List.head?_nil]
  rw [if_neg (by simp), if_neg (by simp), parseExpTail, if_pos rfl]

/-- `Number(...)` on a non-empty pure digit string reads the decimal
value. -/
theorem jsNumber_digits (cs : List Char) (h1 : cs ≠ [])
    (h2 : ∀ c ∈ cs, isDigitChar c = true) :
    jsNumber (String.mk cs) = some ((digitsVal cs : ℕ) : ℚ) := by
  have htrim : trimList (String.mk cs).data = cs :=
    trimList_eq_self (fun c hc => digit_not_ws c (h2 c hc))
  rw [jsNumber]
  simp only [htrim]
  rw [if_neg h1, jsNumberCore_digits cs h1 h2]

/-- `String.append` on the underlying data. -/
theorem string_append_data (a b : String) : (a ++ b).data = a.data ++ b.data := rfl

/-- The canonical `HH:MM:SS` rendering of an hours/minutes/seconds triple,
with each component zero-padded to at least two digits — exactly the shape
`formatHhmmss` produces and the shape the specification calls a valid
timestamp (minutes and seconds are two digits; hours grow beyond two digits
when needed). -/
def hmsRender (h m s : ℕ) : String :=
  jsPad2 (jsStringOfNat h) ++ ":" ++ jsPad2 (jsStringOfNat m) ++ ":" ++
    jsPad2 (jsStringOfNat s)

/-- The character data of one padded field. -/
theorem jsPad2_data (k : ℕ) : (jsPad2 (jsStringOfNat k)).data =
    List.replicate (2 - (natToDigits k).length) '0' ++ natToDigits k := rfl

/-- Every character of a padded field is a digit. -/
theorem jsPad2_all_digit (k : ℕ) :
    ∀ c ∈ (jsPad2 (jsStringOfNat k)).data, isDigitChar c = true := by
  intro c hc
  rw [jsPad2_data] at hc
  rcases List.mem_append.mp hc with hrep | hdig
  · rcases List.eq_of_mem_replicate hrep with rfl
    decide
  · exact natToDigits_all_digit k c hdig

/-- A padded field is non-empty. -/
theorem jsPad2_ne_nil (k : ℕ) : (jsPad2 (jsStringOfNat k)).data ≠ [] := by
  rw [jsPad2_data]
  intro h
  exact natToDigits_ne_nil k (List.append_eq_nil.mp h).2

/-- A padded field reads back its value. -/
theorem jsPad2_val (k : ℕ) : digitsVal ((jsPad2 (jsStringOfNat k)).data) = k := by
  rw [jsPad2_data, digitsVal_replicate_zero, digitsVal_natToDigits]

/-- The data of the rendered `HH:MM:SS` string. -/
theorem hmsRender_data (h m s : ℕ) :
    (hmsRender h m s).data = (jsPad2 (jsStringOfNat h)).data ++
      ':' :: ((jsPad2 (jsStringOfNat m)).data ++
        ':' :: (jsPad2 (jsStringOfNat s)).data) := by
  rw [hmsRender]
  simp only [string_append_data, List.append_assoc]
  rfl

/-- Parsing the rendered triple recovers the total seconds. -/
theorem parse_hmsRender (h m s : ℕ) (hm : m ≤ 59) (hs : s ≤ 59) :
    parseHhmmss (hmsRender h m s) = Except.ok ((h * 3600 + m * 60 + s : ℕ) : ℚ) := by
  have hws : ∀ c ∈ (hmsRender h m s).data, isJsWs c = false := by
    intro c hc
    rw [hmsRender_data] at hc
    rcases List.mem_append.mp hc with hh | hc2
    · exact digit_not_ws c (jsPad2_all_digit h c hh)
    · rcases List.mem_cons.mp hc2 with rfl | hc3
      · decide
      · rcases List.mem_append.mp hc3 with hmm | hc4
        · exact digit_not_ws c (jsPad2_all_digit m c hmm)
        · rcases List.mem_cons.mp hc4 with rfl | hss
          · decide
          · exact digit_not_ws c (jsPad2_all_digit s c hss)
  have hsplit : splitColonList (hmsRender h m s).data =
      [(jsPad2 (jsStringOfNat h)).data, (jsPad2 (jsStringOfNat m)).data,
        (jsPad2 (jsStringOfNat s)).data] := by
    rw [hmsRender_data,
      splitColonList_append _
        (fun c hc => digit_ne_char c ':' (jsPad2_all_digit h c hc) (by decide)),
      splitColonList_append _
        (fun c hc => digit_ne_char c ':' (jsPad2_all_digit m c hc) (by decide)),
      splitColonList_no_colon
        (fun c hc => digit_ne_char c ':' (jsPad2_all_digit s c hc) (by decide))]
  have hfield : ∀ k : ℕ, jsNumber (String.mk ((jsPad2 (jsStringOfNat k)).data)) =
      some ((k : ℕ) : ℚ) := by
    intro k
    rw [jsNumber_digits _ (jsPad2_ne_nil k) (jsPad2_all_digit k), jsPad2_val]
  rw [parseHhmmss, jsTrim, trimList_eq_self hws]
  show (match (splitColonList (hmsRender h m s).data).map String.mk with
    | [p1, p2, p3] => _ | _ => _) = _
  rw [hsplit]
  simp only [List.map_cons, List.map_nil]
  rw [show (String.mk ((jsPad2 (jsStringOfNat h)).data)) = jsPad2 (jsStringOfNat h)
    from rfl]
  simp only [hfield]
  rw [if_neg (by
    push_neg
    refine ⟨by positivity, by positivity, ?_, by positivity, ?_⟩
    · have : (m : ℚ) ≤ 59 := by exact_mod_cast hm
      linarith
    · have : (s : ℚ) ≤ 59 := by exact_mod_cast hs
      linarith)]
  congr 1
  push_cast
  ring

/-- `formatHhmmss` on a non-negative integer renders the padded
`HH:MM:SS` triple of its Euclidean split. -/
theorem formatHhmmss_natCast (n : ℕ) :
    formatHhmmss (n : ℚ) = hmsRender (n / 3600) (n % 3600 / 60) (n % 60) := by
  have hround : jsRound (n : ℚ) = (n : ℤ) := by
    rw [jsRound, Int.floor_eq_iff]
    constructor
    · push_cast
      linarith
    · push_cast
      linarith
  have hmax : (max 0 ((n : ℤ))).toNat = n := by
    rw [max_eq_right (Int.natCast_nonneg n)]
    exact Int.toNat_natCast n
  rw [formatHhmmss]
  simp only [hround, hmax]
  rfl

/-- C6: `HH:MM:SS` parsing and formatting are mutually inverse — parsing a
rendered triple (minutes and seconds in range) gives its total seconds,
formatting that total re-renders the same string, and format-then-parse is
the identity on every non-negative integer number of seconds. -/
theorem parse_format_roundTrip (h m s n : ℕ) (hm : m ≤ 59) (hs : s ≤ 59) :
    (parseHhmmss (hmsRender h m s) =
        Except.ok ((h * 3600 + m * 60 + s : ℕ) : ℚ) ∧
      formatHhmmss ((h * 3600 + m * 60 + s : ℕ) : ℚ) = hmsRender h m s) ∧
    parseHhmmss (formatHhmmss (n : ℚ)) = Except.ok ((n : ℚ)) := by
  refine ⟨⟨parse_hmsRender h m s hm hs, ?_⟩, ?_⟩
  · rw [formatHhmmss_natCast,
      show (h * 3600 + m * 60 + s) / 3600 = h by omega,
      show (h * 3600 + m * 60 + s) % 3600 / 60 = m by omega,
      show (h * 3600 + m * 60 + s) % 60 = s by omega]
  · rw [formatHhmmss_natCast, parse_hmsRender _ _ _ (by omega) (by omega)]
    congr 1
    rw [show n / 3600 * 3600 + n % 3600 / 60 * 60 + n % 60 = n by omega]

/-- Witness for the round-trip theorem at a concrete triple. -/
theorem parse_format_roundTrip_witness :
    2 ≤ 59 ∧ 3 ≤ 59 ∧
    ((parseHhmmss (hmsRender 1 2 3) =
        Except.ok ((1 * 3600 + 2 * 60 + 3 : ℕ) : ℚ) ∧
      formatHhmmss ((1 * 3600 + 2 * 60 + 3 : ℕ) : ℚ) = hmsRender 1 2 3) ∧
    parseHhmmss (formatHhmmss ((7 : ℕ) : ℚ)) = Except.ok (((7 : ℕ) : ℚ))) :=
  ⟨by decide, by decide, parse_format_roundTrip 1 2 3 7 (by decide) (by decide)⟩

/-! ### Strictness of `parseHhmmss` -/

/-- C7 counterexample: `"::"` splits into three empty fields, JavaScript
`Number("")` is `0`, so `parseHhmmss` accepts it and returns `0` instead of
rejecting the empty fields. -/
theorem parseHhmmss_acceptsEmptyFields : parseHhmmss "::" = Except.ok 0 := by
  simp only [parseHhmmss, show jsSplitColon (jsTrim "::") = ["", "", ""] from rfl,
    show jsNumber "" = some 0 from rfl]
  norm_num

/-- Spec-side acceptance condition of the amended strictness claim: exactly
three colon-separated fields of the trimmed input, each converting to a
finite number under `Number(...)` (an empty or whitespace-only field
converts to `0`), with hours non-negative and minutes/seconds inside
`[0, 60)`. -/
def hhmmssAccepts (value : String) : Prop :=
  match jsSplitColon (jsTrim value) with
  | [p1, p2, p3] =>
    match jsNumber p1, jsNumber p2, jsNumber p3 with
    | some h, some m, some s => 0 ≤ h ∧ 0 ≤ m ∧ m < 60 ∧ 0 ≤ s ∧ s < 60
    | _, _, _ => False
  | _ => False

/-- C7 (amended): `parseHhmmss` returns a value exactly on inputs satisfying
the acceptance condition — in particular it raises an error whenever the
input does not have exactly 3 colon-separated fields, whenever some field
is non-numeric (`Number` gives `NaN`), and whenever the values are out of
range; but an empty field counts as the number `0`. -/
theorem parseHhmmss_ok_iff (value : String) :
    (∃ q, parseHhmmss value = Except.ok q) ↔ hhmmssAccepts value := by
  rw [parseHhmmss, hhmmssAccepts]
  cases hsp : jsSplitColon (jsTrim value) with
  | nil => simp
  | cons p1 rest =>
    cases rest with
    | nil => simp
    | cons p2 rest2 =>
      cases rest2 with
      | nil => simp
      | cons p3 rest3 =>
        cases rest3 with
        | cons p4 rest4 => simp
        | nil =>
          cases hn1 : jsNumber p1 with
          | none => simp [hn1]
          | some h =>
            cases hn2 : jsNumber p2 with
            | none => simp [hn1, hn2]
            | some m =>
              cases hn3 : jsNumber p3 with
              | none => simp [hn1, hn2, hn3]
              | some s =>
                simp only [hn1, hn2, hn3]
                by_cases hr : h < 0 ∨ m < 0 ∨ m ≥ 60 ∨ s < 0 ∨ s ≥ 60
                · rw [if_pos hr]
                  simp only [reduceCtorEq, exists_false, false_iff]
                  rintro ⟨h1, h2, h3, h4, h5⟩
                  rcases hr with hx | hx | hx | hx | hx <;> linarith
                · rw [if_neg hr]
                  push_neg at hr
                  exact iff_of_true ⟨_, rfl⟩
                    ⟨hr.1, hr.2.1, hr.2.2.1, hr.2.2.2.1, hr.2.2.2.2⟩

/-- Witness for the acceptance characterization at a concrete input. -/
theorem parseHhmmss_ok_iff_witness :
    (∃ q, parseHhmmss "00:00:07" = Except.ok q) ↔ hhmmssAccepts "00:00:07" :=
  parseHhmmss_ok_iff "00:00:07"
